/-
Verification of the ClickerEngine economic core (CurrencyManager,
UpgradeManager, ParadigmManager, ProductionManager, AchievementManager,
StateManager and the engine orchestrator) against its specification.

The TypeScript source is shallowly embedded:
  * JS numbers are modelled as exact rationals (ℚ); upgrade levels, which the
    data model keeps as non-negative integers, are modelled as ℕ, and the
    `setLevel` clamp `Math.max(0, level)` takes an ℤ argument.
  * Each manager's `Map<string, V>` is modelled as an association list
    `List (String × V)` with JS `Map` semantics: `set` of a present key
    updates in place, `set` of an absent key appends, iteration is in list
    order.
  * `eventBus.emit` is modelled as appending the published event to an
    event log carried in the engine state; observer delivery is outside the
    claims under verification.
  * Methods that `throw` return `Except String`; JS truthiness of
    `string | null` values (null and the empty string are falsy) is modelled
    by `optTruthy` / `strTruthy` where the source branches on it.
-/
import Mathlib

namespace ClickerEngine

/-! ## Association-list maps with JS `Map` semantics -/

/-- First value stored under key `k` (`Map.get`). -/
def mfind (k : String) : List (String × α) → Option α
  | [] => none
  | (k', v) :: rest => if k' = k then some v else mfind k rest

/-- `Map.set`: replace the first binding of `k`, or append when absent. -/
def mset (k : String) (v : α) : List (String × α) → List (String × α)
  | [] => [(k, v)]
  | (k', v') :: rest => if k' = k then (k, v) :: rest else (k', v') :: mset k v rest

/-- Mutate the object stored under `k` in place (field assignment through a
fetched reference in the source). -/
def mupdate (k : String) (f : α → α) : List (String × α) → List (String × α)
  | [] => []
  | (k', v') :: rest => if k' = k then (k', f v') :: rest else (k', v') :: mupdate k f rest

/-- `Map.has`. -/
def mhas (k : String) (m : List (String × α)) : Bool :=
  (mfind k m).isSome

/-- JS truthiness of a `string | null` value: `null` and `""` are falsy. -/
def optTruthy : Option String → Bool
  | none => false
  | some s => !(s == "")

/-- JS truthiness of a plain string: only `""` is falsy. -/
def strTruthy (s : String) : Bool :=
  !(s == "")

/-! ## Data model (src/core/types.ts, src/systems/AchievementManager.ts) -/

/-- A currency (`Currency` in core/types.ts); display-only optional fields
(color, visibility, custom formatter) are omitted as no claim mentions them. -/
structure Currency where
  id : String
  name : String
  amount : ℚ
  symbol : String
  deriving Repr, DecidableEq

/-- An upgrade (`Upgrade` in core/types.ts). `scalable?: boolean` is falsy
when absent, so it is modelled as `Bool`; `scaleFactor` keeps its
`Option` so that the `?? 1.15` default is visible in `calculateCost`. -/
structure Upgrade where
  id : String
  name : String
  description : String
  cost : ℚ
  currencyId : String
  level : ℕ
  purchased : Bool
  effect : ℚ
  scalable : Bool
  scaleFactor : Option ℚ
  deriving Repr, DecidableEq

/-- A paradigm (`Paradigm` in core/types.ts); the opaque `data` bag is
omitted as no claim mentions it. -/
structure Paradigm where
  id : String
  name : String
  description : String
  active : Bool
  productionMultiplier : ℚ
  deriving Repr, DecidableEq

/-- An achievement (`Achievement` in systems/AchievementManager.ts);
display-only optional fields are omitted. -/
structure Achievement where
  id : String
  name : String
  description : String
  unlocked : Bool
  progress : ℚ
  target : ℚ
  deriving Repr, DecidableEq

/-- Published events (`GameEvents` payloads in core/EventBus.ts),
restricted to the fields the claims inspect. -/
inductive Ev where
  | currencyAdded (currencyId : String)
  | currencyChanged (currencyId : String) (oldAmount newAmount change : ℚ)
  | upgradeAvailable (upgradeId : String)
  | upgradePurchased (upgradeId : String) (level : ℕ) (cost : ℚ)
  | upgradeLeveled (upgradeId : String) (newLevel : ℕ) (effect : ℚ)
  | paradigmChanged (paradigmId : String) (paradigmName : String) (multiplier : ℚ)
  | productionTick (deltaTimeMs : ℚ)
  | achievementProgress (achievementId : String) (progress target : ℚ)
  | achievementUnlocked (achievementId : String)
  | stateSaved (key : String)
  | stateLoaded (key : String)
  deriving Repr, DecidableEq

/-- The combined mutable state owned by the engine's managers, plus the log
of events published on the bus so far. -/
structure Engine where
  currencies : List (String × Currency)
  upgrades : List (String × Upgrade)
  paradigms : List (String × Paradigm)
  currentParadigm : Option String
  achievements : List (String × Achievement)
  productionRates : List (String × ℚ)
  clickMultipliers : List (String × ℚ)
  totalClicks : ℕ
  log : List Ev
  deriving Repr, DecidableEq

instance {ε α : Type} [DecidableEq ε] [DecidableEq α] : DecidableEq (Except ε α) := fun a b =>
  match a, b with
  | .error e, .error f =>
    if h : e = f then isTrue (by rw [h]) else isFalse (by intro hh; cases hh; exact h rfl)
  | .error _, .ok _ => isFalse (by intro hh; cases hh)
  | .ok _, .error _ => isFalse (by intro hh; cases hh)
  | .ok x, .ok y =>
    if h : x = y then isTrue (by rw [h]) else isFalse (by intro hh; cases hh; exact h rfl)

/-- `eventBus.emit`: record the published event. -/
def emit (e : Ev) (s : Engine) : Engine :=
  { s with log := s.log ++ [e] }

/-! ## CurrencyManager (src/systems/CurrencyManager.ts) -/

/-- `CurrencyManager.addCurrency`: throws on a duplicate id, otherwise stores
a copy and emits `currency:added`. -/
def addCurrency (c : Currency) (s : Engine) : Except String Engine :=
  if mhas c.id s.currencies then
    .error ("Currency with ID " ++ c.id ++ " already exists")
  else
    .ok (emit (.currencyAdded c.id) { s with currencies := mset c.id c s.currencies })

/-- `CurrencyManager.get`: amount, or 0 when the id is unknown. -/
def currencyGet (currencyId : String) (s : Engine) : ℚ :=
  match mfind currencyId s.currencies with
  | some c => c.amount
  | none => 0

/-- `CurrencyManager.set`: clamps to `Math.max(0, amount)` and emits
`currency:changed`; throws on an unknown id. -/
def currencySet (currencyId : String) (amount : ℚ) (s : Engine) : Except String Engine :=
  match mfind currencyId s.currencies with
  | none => .error ("Currency " ++ currencyId ++ " does not exist")
  | some c =>
    let oldAmount := c.amount
    let newAmount := max 0 amount
    .ok (emit (.currencyChanged currencyId oldAmount newAmount (newAmount - oldAmount))
      { s with currencies := mupdate currencyId (fun c => { c with amount := newAmount }) s.currencies })

/-- `CurrencyManager.add`: `currency.amount += amount` — no clamping — then
emits `currency:changed`; throws on an unknown id. Returns the new total. -/
def currencyAdd (currencyId : String) (amount : ℚ) (s : Engine) : Except String (ℚ × Engine) :=
  match mfind currencyId s.currencies with
  | none => .error ("Currency " ++ currencyId ++ " does not exist")
  | some c =>
    let oldAmount := c.amount
    let newAmount := oldAmount + amount
    .ok (newAmount,
      emit (.currencyChanged currencyId oldAmount newAmount amount)
        { s with currencies := mupdate currencyId (fun c => { c with amount := newAmount }) s.currencies })

/-- `CurrencyManager.subtract`: clamps to `Math.max(0, amount - delta)` and
emits `currency:changed` with `change = -amount`; throws on an unknown id. -/
def currencySubtract (currencyId : String) (amount : ℚ) (s : Engine) : Except String (ℚ × Engine) :=
  match mfind currencyId s.currencies with
  | none => .error ("Currency " ++ currencyId ++ " does not exist")
  | some c =>
    let oldAmount := c.amount
    let newAmount := max 0 (oldAmount - amount)
    .ok (newAmount,
      emit (.currencyChanged currencyId oldAmount newAmount (-amount))
        { s with currencies := mupdate currencyId (fun c => { c with amount := newAmount }) s.currencies })

/-- `CurrencyManager.has`: `get(id) >= amount`. -/
def currencyHas (currencyId : String) (amount : ℚ) (s : Engine) : Bool :=
  decide (amount ≤ currencyGet currencyId s)

/-- `CurrencyManager.getAllAsRecord`: id → amount, in map order. -/
def currenciesAsRecord (s : Engine) : List (String × ℚ) :=
  s.currencies.map (fun x => (x.1, x.2.amount))

/-! ## UpgradeManager (src/systems/UpgradeManager.ts) -/

/-- `UpgradeManager.addUpgrade`: throws on a duplicate id, otherwise stores a
copy and emits `upgrade:available`. -/
def addUpgrade (u : Upgrade) (s : Engine) : Except String Engine :=
  if mhas u.id s.upgrades then
    .error ("Upgrade with ID " ++ u.id ++ " already exists")
  else
    .ok (emit (.upgradeAvailable u.id) { s with upgrades := mset u.id u s.upgrades })

/-- `UpgradeManager.calculateCost`: `cost` for a non-scalable upgrade,
`Math.ceil(cost * (scaleFactor ?? 1.15) ** level)` for a scalable one. -/
def calculateCost (u : Upgrade) : ℚ :=
  if !u.scalable then u.cost
  else
    let scaleFactor := u.scaleFactor.getD (23 / 20)
    (⌈u.cost * scaleFactor ^ u.level⌉ : ℤ)

/-- `UpgradeManager.purchase`: throws on an unknown id; returns `false`
without touching anything when the player cannot afford the computed cost;
otherwise subtracts the cost, bumps the level, sets the purchased flag and
emits `upgrade:purchased` then `upgrade:leveled`. -/
def purchase (upgradeId : String) (s : Engine) : Except String (Bool × Engine) :=
  match mfind upgradeId s.upgrades with
  | none => .error ("Upgrade " ++ upgradeId ++ " does not exist")
  | some u =>
    let cost := calculateCost u
    if !currencyHas u.currencyId cost s then
      .ok (false, s)
    else
      match currencySubtract u.currencyId cost s with
      | .error e => .error e
      | .ok (_, s₁) =>
        let s₂ := { s₁ with
          upgrades := mupdate upgradeId (fun u => { u with level := u.level + 1, purchased := true }) s₁.upgrades }
        let newLevel := u.level + 1
        let s₃ := emit (.upgradePurchased upgradeId newLevel cost) s₂
        let s₄ := emit (.upgradeLeveled upgradeId newLevel u.effect) s₃
        .ok (true, s₄)

/-- `UpgradeManager.setLevel`: clamps to `Math.max(0, level)`, no events;
throws on an unknown id. -/
def setLevel (upgradeId : String) (level : ℤ) (s : Engine) : Except String Engine :=
  match mfind upgradeId s.upgrades with
  | none => .error ("Upgrade " ++ upgradeId ++ " does not exist")
  | some _ =>
    .ok { s with upgrades := mupdate upgradeId (fun u => { u with level := (max 0 level).toNat }) s.upgrades }

/-- `UpgradeManager.getAsRecord`: id → level, in map order. -/
def upgradesAsRecord (s : Engine) : List (String × ℕ) :=
  s.upgrades.map (fun x => (x.1, x.2.level))

/-! ## ParadigmManager (src/systems/ParadigmManager.ts) -/

/-- `ParadigmManager.addParadigm`: throws on a duplicate id; the first
paradigm registered while none is active and marked active becomes current,
any later paradigm asking to be active has its flag forced to `false`.
No event is emitted. -/
def addParadigm (p : Paradigm) (s : Engine) : Except String Engine :=
  if mhas p.id s.paradigms then
    .error ("Paradigm with ID " ++ p.id ++ " already exists")
  else if p.active && decide (s.currentParadigm = none) then
    .ok { s with currentParadigm := some p.id, paradigms := mset p.id p s.paradigms }
  else if p.active then
    .ok { s with paradigms := mset p.id { p with active := false } s.paradigms }
  else
    .ok { s with paradigms := mset p.id p s.paradigms }

/-- `ParadigmManager.switchTo`: throws on an unknown id; deactivates the
current paradigm (the source guards with `if (this.currentParadigm)`, which
is JS-truthiness: a `""` current id is skipped), activates the target,
emits `paradigm:changed`. -/
def switchTo (paradigmId : String) (s : Engine) : Except String Engine :=
  if !mhas paradigmId s.paradigms then
    .error ("Paradigm " ++ paradigmId ++ " does not exist")
  else
    let s₁ :=
      if optTruthy s.currentParadigm then
        match s.currentParadigm with
        | some cur => { s with paradigms := mupdate cur (fun p => { p with active := false }) s.paradigms }
        | none => s
      else s
    match mfind paradigmId s₁.paradigms with
    | none => .error ("Paradigm " ++ paradigmId ++ " does not exist")
    | some p =>
      let s₂ := { s₁ with
        paradigms := mupdate paradigmId (fun q => { q with active := true }) s₁.paradigms,
        currentParadigm := some paradigmId }
      .ok (emit (.paradigmChanged paradigmId p.name p.productionMultiplier) s₂)

/-- `ParadigmManager.getCurrent`: `undefined` when `currentParadigm` is falsy
(null or `""`), otherwise the map entry for the current id. -/
def getCurrent (s : Engine) : Option Paradigm :=
  if !optTruthy s.currentParadigm then none
  else s.currentParadigm.bind (fun id => mfind id s.paradigms)

/-- `ParadigmManager.getCurrentMultiplier`:
`getCurrent()?.productionMultiplier ?? 1`. -/
def getCurrentMultiplier (s : Engine) : ℚ :=
  match getCurrent s with
  | some p => p.productionMultiplier
  | none => 1

/-! ## ProductionManager (src/systems/ProductionManager.ts) -/

/-- The `forEach` body of `ProductionManager.tick`: for each currency with a
positive rate, `currencyManager.add(id, rate * deltaSeconds * paradigmMultiplier)`.
A throwing `add` (unregistered currency) aborts the loop. -/
def tickLoop (deltaSeconds paradigmMultiplier : ℚ) :
    List (String × ℚ) → Engine → Except String Engine
  | [], s => .ok s
  | (currencyId, rate) :: rest, s =>
    if 0 < rate then
      match currencyAdd currencyId (rate * deltaSeconds * paradigmMultiplier) s with
      | .error e => .error e
      | .ok (_, s') => tickLoop deltaSeconds paradigmMultiplier rest s'
    else
      tickLoop deltaSeconds paradigmMultiplier rest s

/-- `ProductionManager.tick`: applies production for every positive-rate
currency, then emits a single `production:tick`. -/
def tick (deltaTimeMs : ℚ) (s : Engine) : Except String Engine :=
  let deltaSeconds := deltaTimeMs / 1000
  let paradigmMultiplier := getCurrentMultiplier s
  match tickLoop deltaSeconds paradigmMultiplier s.productionRates s with
  | .error e => .error e
  | .ok s₁ => .ok (emit (.productionTick deltaTimeMs) s₁)

/-! ## AchievementManager (src/systems/AchievementManager.ts) -/

/-- `AchievementManager.addAchievement`: an unconditional `Map.set` — a
duplicate id silently replaces the stored achievement. -/
def addAchievement (a : Achievement) (s : Engine) : Engine :=
  { s with achievements := mset a.id a s.achievements }

/-- `AchievementManager.unlockAchievement`: no-op when unknown or already
unlocked; otherwise sets the flag, clamps progress to the target and emits
`achievement:unlocked`. -/
def unlockAchievement (achievementId : String) (s : Engine) : Engine :=
  match mfind achievementId s.achievements with
  | none => s
  | some a =>
    if a.unlocked then s
    else
      let ach := mupdate achievementId (fun a => { a with unlocked := true, progress := a.target }) s.achievements
      emit (.achievementUnlocked achievementId) { s with achievements := ach }

/-- `AchievementManager.updateProgress`: no-op when unknown or already
unlocked; otherwise stores the progress, unlocks when `progress >= target`,
and then emits `achievement:progress` unconditionally. -/
def updateProgress (achievementId : String) (progress : ℚ) (s : Engine) : Engine :=
  match mfind achievementId s.achievements with
  | none => s
  | some a =>
    if a.unlocked then s
    else
      let ach := mupdate achievementId (fun a => { a with progress := progress }) s.achievements
      let s₁ := { s with achievements := ach }
      let s₂ := if a.target ≤ progress then unlockAchievement achievementId s₁ else s₁
      emit (.achievementProgress achievementId progress a.target) s₂

/-- `AchievementManager.serialize`: id → (unlocked, progress), in map order. -/
def achievementsSerialize (s : Engine) : List (String × (Bool × ℚ)) :=
  s.achievements.map (fun x => (x.1, (x.2.unlocked, x.2.progress)))

/-- `AchievementManager.deserialize`: write back unlocked/progress for every
id still registered; unknown ids are ignored. -/
def achievementsDeserialize (snap : List (String × (Bool × ℚ))) (s : Engine) : Engine :=
  snap.foldl
    (fun s x =>
      let ach := mupdate x.1 (fun a => { a with unlocked := x.2.1, progress := x.2.2 }) s.achievements
      { s with achievements := ach })
    s

/-! ## StateManager (src/systems/StateManager.ts) and the orchestrator's
save/load (src/index.ts). The engine only ever puts `{ totalClicks }` into
the snapshot's `custom` bag, so the bag is modelled as that one field. -/

/-- The persisted `GameState` structure (core/types.ts). -/
structure GameSnapshot where
  timestamp : ℤ
  currencies : List (String × ℚ)
  upgrades : List (String × ℕ)
  currentParadigm : String
  totalClicks : ℕ
  achievements : List (String × (Bool × ℚ))
  custom : Option ℕ
  deriving Repr, DecidableEq

/-- A storage adapter's key→state store; `MemoryStorageAdapter` holds a
`Map<string, GameState>`. -/
structure Store where
  entries : List (String × GameSnapshot)
  deriving Repr, DecidableEq

/-- `StateManager.snapshot`: reads every manager's accessor. The
`currentParadigm` field is `getCurrent()?.id ?? 'default'` and the
`totalClicks` field is the literal `0` the source stores there. -/
def snapshot (now : ℤ) (customState : Option ℕ) (s : Engine) : GameSnapshot :=
  { timestamp := now
    currencies := currenciesAsRecord s
    upgrades := upgradesAsRecord s
    currentParadigm := (getCurrent s).elim "default" Paradigm.id
    totalClicks := 0
    achievements := achievementsSerialize s
    custom := customState }

/-- `StateManager.save` through the in-memory adapter: snapshot, store under
the key, emit `state:saved`. The memory adapter never throws, so the
source's catch path is dead here. -/
def stateSave (key : String) (now : ℤ) (customState : Option ℕ) (s : Engine) (st : Store) :
    Engine × Store :=
  let snap := snapshot now customState s
  (emit (.stateSaved key) s, ⟨mset key snap st.entries⟩)

/-- The currency-restore loop of `StateManager.load`: `set` each saved
amount; a throwing `set` (unregistered id) aborts the loop and the partially
mutated state reaches the source's catch block (`false` result). -/
def applyCurrencies : List (String × ℚ) → Engine → Engine × Bool
  | [], s => (s, true)
  | (currencyId, amount) :: rest, s =>
    match currencySet currencyId amount s with
    | .ok s' => applyCurrencies rest s'
    | .error _ => (s, false)

/-- The upgrade-restore loop of `StateManager.load`: `setLevel` each saved
level (the saved levels are the ℕ levels of the snapshot, passed back as
integers). -/
def applyUpgrades : List (String × ℕ) → Engine → Engine × Bool
  | [], s => (s, true)
  | (upgradeId, level) :: rest, s =>
    match setLevel upgradeId (level : ℤ) s with
    | .ok s' => applyUpgrades rest s'
    | .error _ => (s, false)

/-- `StateManager.load` through the in-memory adapter: `null` when the key is
absent; otherwise restore currencies, upgrades, the paradigm (only when the
saved id is truthy and still registered), and achievements, then emit
`state:loaded`. A throwing restore step is caught: the partially mutated
state is kept and `null` is returned. -/
def stateLoad (key : String) (s : Engine) (st : Store) : Option GameSnapshot × Engine :=
  match mfind key st.entries with
  | none => (none, s)
  | some snap =>
    match applyCurrencies snap.currencies s with
    | (s₁, false) => (none, s₁)
    | (s₁, true) =>
      match applyUpgrades snap.upgrades s₁ with
      | (s₂, false) => (none, s₂)
      | (s₂, true) =>
        if strTruthy snap.currentParadigm && mhas snap.currentParadigm s₂.paradigms then
          match switchTo snap.currentParadigm s₂ with
          | .error _ => (none, s₂)
          | .ok s₃ =>
            let s₄ := achievementsDeserialize snap.achievements s₃
            (some snap, emit (.stateLoaded key) s₄)
        else
          let s₄ := achievementsDeserialize snap.achievements s₂
          (some snap, emit (.stateLoaded key) s₄)

/-- `ClickerGameEngine.saveGame`: `stateManager.save(key, { totalClicks })`. -/
def saveGame (key : String) (now : ℤ) (s : Engine) (st : Store) : Engine × Store :=
  stateSave key now (some s.totalClicks) s st

/-- `ClickerGameEngine.loadGame`: load, then restore the click counter from
`state.custom?.totalClicks` — a truthiness test, so a saved count of 0 is
not applied; returns whether a state was found. -/
def loadGame (key : String) (s : Engine) (st : Store) : Bool × Engine :=
  match stateLoad key s st with
  | (none, s') => (false, s')
  | (some snap, s') =>
    match snap.custom with
    | some n => if n ≠ 0 then (true, { s' with totalClicks := n }) else (true, s')
    | none => (true, s')

/-! ## Operation sequences used by the invariant claims -/

/-- One external mutation of the currency store. -/
inductive CurrencyOp where
  | set (currencyId : String) (amount : ℚ)
  | add (currencyId : String) (amount : ℚ)
  | sub (currencyId : String) (amount : ℚ)
  deriving Repr, DecidableEq

/-- Run one currency operation. -/
def runCurrencyOp (op : CurrencyOp) (s : Engine) : Except String Engine :=
  match op with
  | .set currencyId amount => currencySet currencyId amount s
  | .add currencyId amount => (currencyAdd currencyId amount s).map Prod.snd
  | .sub currencyId amount => (currencySubtract currencyId amount s).map Prod.snd

/-- Run a sequence of currency operations, stopping at the first throw. -/
def runCurrencyOps : List CurrencyOp → Engine → Except String Engine
  | [], s => .ok s
  | op :: rest, s =>
    match runCurrencyOp op s with
    | .error e => .error e
    | .ok s' => runCurrencyOps rest s'

/-- One paradigm operation: registration or a switch. -/
inductive ParadigmOp where
  | reg (p : Paradigm)
  | switch (paradigmId : String)
  deriving Repr, DecidableEq

/-- Run one paradigm operation. -/
def runParadigmOp (op : ParadigmOp) (s : Engine) : Except String Engine :=
  match op with
  | .reg p => addParadigm p s
  | .switch paradigmId => switchTo paradigmId s

/-- Run a sequence of paradigm operations, stopping at the first throw. -/
def runParadigmOps : List ParadigmOp → Engine → Except String Engine
  | [], s => .ok s
  | op :: rest, s =>
    match runParadigmOp op s with
    | .error e => .error e
    | .ok s' => runParadigmOps rest s'

/-- The freshly constructed engine: every manager map empty. -/
def initEngine : Engine :=
  { currencies := []
    upgrades := []
    paradigms := []
    currentParadigm := none
    achievements := []
    productionRates := []
    clickMultipliers := []
    totalClicks := 0
    log := [] }

/-! ## Lemmas about the association-list map operations -/

theorem mfind_mset_self (k : String) (v : α) (l : List (String × α)) :
    mfind k (mset k v l) = some v := by
  induction l with
  | nil => simp [mset, mfind]
  | cons hd tl ih =>
    by_cases h : hd.1 = k
    · simp [mset, h, mfind]
    · simp [mset, h, mfind, ih]

theorem mfind_mset_ne (k k' : String) (v : α) (l : List (String × α)) (h : k' ≠ k) :
    mfind k (mset k' v l) = mfind k l := by
  induction l with
  | nil => simp [mset, mfind, h]
  | cons hd tl ih =>
    obtain ⟨k₀, v₀⟩ := hd
    by_cases hh : k₀ = k'
    · simp [mset, hh, mfind, h]
    · simp [mset, hh, mfind, ih]

theorem mfind_mupdate_self (k : String) (f : α → α) (l : List (String × α)) :
    mfind k (mupdate k f l) = (mfind k l).map f := by
  induction l with
  | nil => simp [mupdate, mfind]
  | cons hd tl ih =>
    by_cases h : hd.1 = k
    · simp [mupdate, h, mfind]
    · simp [mupdate, h, mfind, ih]

theorem mfind_mupdate_ne (k k' : String) (f : α → α) (l : List (String × α)) (h : k' ≠ k) :
    mfind k (mupdate k' f l) = mfind k l := by
  induction l with
  | nil => simp [mupdate, mfind]
  | cons hd tl ih =>
    by_cases hh : hd.1 = k'
    · simp [mupdate, hh, mfind, h, ih]
    · simp [mupdate, hh, mfind, ih]

theorem mupdate_keys (k : String) (f : α → α) (l : List (String × α)) :
    (mupdate k f l).map Prod.fst = l.map Prod.fst := by
  induction l with
  | nil => simp [mupdate]
  | cons hd tl ih =>
    by_cases h : hd.1 = k
    · simp [mupdate, h]
    · simp [mupdate, h, ih]

theorem mhas_mupdate (k k' : String) (f : α → α) (l : List (String × α)) :
    mhas k (mupdate k' f l) = mhas k l := by
  by_cases h : k' = k
  · subst h
    simp only [mhas, mfind_mupdate_self]
    cases mfind k' l <;> simp
  · simp [mhas, mfind_mupdate_ne _ _ _ _ h]

theorem mupdate_eq_self (k : String) (f : α → α) (l : List (String × α)) (v : α)
    (hv : mfind k l = some v) (hf : f v = v) : mupdate k f l = l := by
  induction l with
  | nil => simp [mfind] at hv
  | cons hd tl ih =>
    obtain ⟨k', v'⟩ := hd
    by_cases h : k' = k
    · simp [mfind, h] at hv
      simp [mupdate, h, hv, hf]
    · simp [mfind, h] at hv
      simp [mupdate, h, ih hv]

theorem mfind_some_mem (k : String) (l : List (String × α)) (v : α)
    (h : mfind k l = some v) : (k, v) ∈ l := by
  induction l with
  | nil => simp [mfind] at h
  | cons hd tl ih =>
    obtain ⟨k', v'⟩ := hd
    by_cases hh : k' = k
    · simp [mfind, hh] at h
      rw [hh, h]
      exact List.mem_cons_self _ _
    · simp [mfind, hh] at h
      exact List.mem_cons_of_mem _ (ih h)

theorem mfind_eq_none_of_not_mem_keys (k : String) (l : List (String × α))
    (h : k ∉ l.map Prod.fst) : mfind k l = none := by
  induction l with
  | nil => simp [mfind]
  | cons hd tl ih =>
    obtain ⟨k', v'⟩ := hd
    simp at h
    have hk : k' ≠ k := fun hh => h.1 hh.symm
    simp [mfind, hk]
    exact ih (by simp; exact fun x hx => h.2 x hx)

theorem mfind_eq_of_mem_nodup (k : String) (l : List (String × α)) (v : α)
    (hnd : (l.map Prod.fst).Nodup) (hm : (k, v) ∈ l) : mfind k l = some v := by
  induction l with
  | nil => simp at hm
  | cons hd tl ih =>
    obtain ⟨k', v'⟩ := hd
    rw [List.map_cons, List.nodup_cons] at hnd
    rcases List.mem_cons.1 hm with h | h
    · rw [Prod.mk.injEq] at h
      obtain ⟨h1, h2⟩ := h
      subst h1
      subst h2
      simp [mfind]
    · have hk : k' ≠ k := by
        intro hh
        subst hh
        exact hnd.1 (by simpa using ⟨v, h⟩)
      simp [mfind, hk, ih hnd.2 h]

theorem mem_values_eq_of_nodup (k : String) (l : List (String × α)) (v w : α)
    (hnd : (l.map Prod.fst).Nodup) (hv : (k, v) ∈ l) (hw : (k, w) ∈ l) : v = w := by
  have h1 := mfind_eq_of_mem_nodup k l v hnd hv
  have h2 := mfind_eq_of_mem_nodup k l w hnd hw
  rw [h1] at h2
  exact Option.some.inj h2

theorem mupdate_mupdate (k : String) (f g : α → α) (l : List (String × α)) :
    mupdate k f (mupdate k g l) = mupdate k (fun v => f (g v)) l := by
  induction l with
  | nil => simp [mupdate]
  | cons hd tl ih =>
    obtain ⟨k', v'⟩ := hd
    by_cases h : k' = k
    · simp [mupdate, h]
    · simp [mupdate, h, ih]

theorem mem_mset (k : String) (v : α) (l : List (String × α)) (x : String × α)
    (hx : x ∈ mset k v l) : x = (k, v) ∨ x ∈ l := by
  induction l with
  | nil =>
    simp [mset] at hx
    exact Or.inl hx
  | cons hd tl ih =>
    obtain ⟨k', v'⟩ := hd
    by_cases h : k' = k
    · simp only [mset, if_pos h] at hx
      rcases List.mem_cons.1 hx with hx | hx
      · exact Or.inl hx
      · exact Or.inr (List.mem_cons_of_mem _ hx)
    · simp only [mset, if_neg h] at hx
      rcases List.mem_cons.1 hx with hx | hx
      · exact Or.inr (hx ▸ List.mem_cons_self _ _)
      · rcases ih hx with hh | hh
        · exact Or.inl hh
        · exact Or.inr (List.mem_cons_of_mem _ hh)

theorem mset_keys_of_absent (k : String) (v : α) (l : List (String × α))
    (h : mfind k l = none) : (mset k v l).map Prod.fst = l.map Prod.fst ++ [k] := by
  induction l with
  | nil => simp [mset]
  | cons hd tl ih =>
    obtain ⟨k', v'⟩ := hd
    by_cases hh : k' = k
    · simp [mfind, hh] at h
    · simp [mfind, hh] at h
      simp [mset, hh, ih h]

theorem mem_mupdate_nodup (k : String) (f : α → α) (l : List (String × α))
    (hnd : (l.map Prod.fst).Nodup) (x : String × α) (hx : x ∈ mupdate k f l) :
    (x ∈ l ∧ x.1 ≠ k) ∨ (∃ v, mfind k l = some v ∧ x = (k, f v)) := by
  induction l with
  | nil => simp [mupdate] at hx
  | cons hd tl ih =>
    obtain ⟨k', v'⟩ := hd
    rw [List.map_cons, List.nodup_cons] at hnd
    by_cases h : k' = k
    · subst h
      simp only [mupdate, if_pos rfl] at hx
      rcases List.mem_cons.1 hx with hx | hx
      · exact Or.inr ⟨v', by simp [mfind], hx⟩
      · left
        refine ⟨List.mem_cons_of_mem _ hx, ?_⟩
        intro hk
        have hmem : (x.1, x.2) ∈ tl := by rwa [Prod.mk.eta]
        rw [hk] at hmem
        exact hnd.1 (by simpa using ⟨x.2, hmem⟩)
    · simp only [mupdate, if_neg h] at hx
      rcases List.mem_cons.1 hx with hx | hx
      · subst hx
        exact Or.inl ⟨List.mem_cons_self _ _, fun hk => h hk⟩
      · rcases ih hnd.2 hx with hh | hh
        · exact Or.inl ⟨List.mem_cons_of_mem _ hh.1, hh.2⟩
        · rcases hh with ⟨v, hv, hxv⟩
          exact Or.inr ⟨v, by simp [mfind, h, hv], hxv⟩

theorem not_mem_keys_of_mfind_none (k : String) (l : List (String × α))
    (h : mfind k l = none) : k ∉ l.map Prod.fst := by
  induction l with
  | nil => simp
  | cons hd tl ih =>
    obtain ⟨k', v'⟩ := hd
    by_cases hh : k' = k
    · simp [mfind, hh] at h
    · simp [mfind, hh] at h
      simp only [List.map_cons, List.mem_cons]
      rintro (he | he)
      · exact hh he.symm
      · exact ih h he

theorem mfind_isSome_of_mem_keys (k : String) (l : List (String × α))
    (h : k ∈ l.map Prod.fst) : (mfind k l).isSome = true := by
  induction l with
  | nil => simp at h
  | cons hd tl ih =>
    obtain ⟨k', v'⟩ := hd
    by_cases hh : k' = k
    · simp [mfind, hh]
    · simp at h
      rcases h with h | h
      · exact absurd h.symm hh
      · simpa [mfind, hh] using ih (by simpa using h)

theorem mupdate_forall {P : α → Prop} (k : String) (f : α → α) (l : List (String × α))
    (hl : ∀ x ∈ l, P x.2) (hf : ∀ v, P v → P (f v)) :
    ∀ x ∈ mupdate k f l, P x.2 := by
  induction l with
  | nil => simp [mupdate]
  | cons hd tl ih =>
    by_cases h : hd.1 = k
    · simp only [mupdate, h, if_pos rfl]
      intro x hx
      rcases List.mem_cons.1 hx with hx | hx
      · rw [hx]; exact hf _ (hl hd (by simp))
      · exact hl x (List.mem_cons_of_mem _ hx)
    · simp only [mupdate, h, if_neg h]
      intro x hx
      rcases List.mem_cons.1 hx with hx | hx
      · rw [hx]; exact hl hd (by simp)
      · exact ih (fun y hy => hl y (List.mem_cons_of_mem _ hy)) x hx

/-! ## Concrete fixtures used by witnesses and counterexamples -/

/-- A scalable upgrade with `baseCost = 100`, `scaleFactor = 1.15`, at the
given level (the spec's worked example). -/
def demoUpgrade (level : ℕ) : Upgrade :=
  { id := "worker"
    name := "Worker"
    description := "Auto clicker"
    cost := 100
    currencyId := "gold"
    level := level
    purchased := false
    effect := 1
    scalable := true
    scaleFactor := some (23 / 20) }

/-- A gold currency holding the given amount. -/
def demoGold (amount : ℚ) : Currency :=
  { id := "gold", name := "Gold", amount := amount, symbol := "$" }

/-- An engine holding gold at the given amount and the demo upgrade at the
given level. -/
def demoShop (goldAmount : ℚ) (level : ℕ) : Engine :=
  { initEngine with
    currencies := [("gold", demoGold goldAmount)]
    upgrades := [("worker", demoUpgrade level)] }

/-- C3: for every upgrade, `calculateCost` is `ceil(cost * scaleFactor ^ level)`
when scalable (with an explicitly supplied factor) and the flat `cost` when
not; for the spec's worked example (`baseCost = 100`, `scaleFactor = 1.15`)
the cost is 100 at level 0, 115 at level 1 and 133 at level 2. -/
theorem calculateCost_spec :
    (∀ u : Upgrade, u.scalable = false → calculateCost u = u.cost) ∧
    (∀ (u : Upgrade) (f : ℚ), u.scalable = true → u.scaleFactor = some f →
      calculateCost u = ((⌈u.cost * f ^ u.level⌉ : ℤ) : ℚ)) ∧
    calculateCost (demoUpgrade 0) = 100 ∧
    calculateCost (demoUpgrade 1) = 115 ∧
    calculateCost (demoUpgrade 2) = 133 := by
  refine ⟨?_, ?_, ?_, ?_, ?_⟩
  · intro u h
    simp [calculateCost, h]
  · intro u f hs hf
    simp [calculateCost, hs, hf]
  · with_unfolding_all rfl
  · with_unfolding_all rfl
  · with_unfolding_all rfl

/-- Witness for C3: the two conditional parts applied to the demo upgrade
(scalable) and its non-scalable variant. -/
theorem calculateCost_spec_witness :
    calculateCost { demoUpgrade 3 with scalable := false } = 100 ∧
    calculateCost (demoUpgrade 2) = ((⌈(100 : ℚ) * (23 / 20 : ℚ) ^ (2 : ℕ)⌉ : ℤ) : ℚ) :=
  ⟨calculateCost_spec.1 { demoUpgrade 3 with scalable := false } rfl,
   calculateCost_spec.2.1 (demoUpgrade 2) (23 / 20) rfl rfl⟩

/-- C2: purchasing an upgrade whose backing balance is strictly below the
computed cost returns `false` and leaves the entire engine state — currency,
level, purchased flag and the event log — untouched. -/
theorem purchase_insufficient (upgradeId : String) (s : Engine) (u : Upgrade)
    (hu : mfind upgradeId s.upgrades = some u)
    (hlt : currencyGet u.currencyId s < calculateCost u) :
    purchase upgradeId s = .ok (false, s) := by
  have hhas : currencyHas u.currencyId (calculateCost u) s = false := by
    simp [currencyHas]
    exact hlt
  simp [purchase, hu, hhas]

/-- Witness for C2: with 50 gold against a level-0 cost of 100 the purchase
is refused and the state is returned unchanged. -/
theorem purchase_insufficient_witness :
    mfind "worker" (demoShop 50 0).upgrades = some (demoUpgrade 0) ∧
    currencyGet (demoUpgrade 0).currencyId (demoShop 50 0) < calculateCost (demoUpgrade 0) ∧
    purchase "worker" (demoShop 50 0) = .ok (false, demoShop 50 0) :=
  ⟨by with_unfolding_all rfl,
   by with_unfolding_all decide,
   purchase_insufficient "worker" (demoShop 50 0) (demoUpgrade 0)
     (by with_unfolding_all rfl) (by with_unfolding_all decide)⟩

/-- A locked achievement with target 10. -/
def demoAchievement : Achievement :=
  { id := "a1", name := "First", description := "Ten clicks", unlocked := false
    progress := 0, target := 10 }

/-- An engine holding only the demo achievement. -/
def demoAchEngine : Engine :=
  { initEngine with achievements := [("a1", demoAchievement)] }

/-- A paradigm fixture. -/
def demoParadigm (id : String) (active : Bool) (mult : ℚ) : Paradigm :=
  { id := id, name := "Phase", description := "A phase", active := active
    productionMultiplier := mult }

/-- An engine in which paradigm `p1` (multiplier 2) is active. -/
def demoParaEngine : Engine :=
  { initEngine with
    paradigms := [("p1", demoParadigm "p1" true 2)]
    currentParadigm := some "p1" }

/-- C9 (amended): `updateProgress` on a known, locked achievement unlocks —
setting the flag and clamping progress to the target — and publishes
`achievement:unlocked` when `progress >= target`, but it publishes
`achievement:progress` in both branches, the unlocking one included (after
the unlocked event), not only when `progress < target`. -/
theorem updateProgress_spec (achievementId : String) (p : ℚ) (s : Engine) (a : Achievement)
    (ha : mfind achievementId s.achievements = some a)
    (hl : a.unlocked = false) :
    (a.target ≤ p →
      updateProgress achievementId p s =
        { s with
          achievements :=
            mupdate achievementId (fun x => { x with unlocked := true, progress := x.target }) s.achievements
          log := s.log ++ [Ev.achievementUnlocked achievementId, Ev.achievementProgress achievementId p a.target] }) ∧
    (a.target ≤ p →
      mfind achievementId (updateProgress achievementId p s).achievements =
        some { a with unlocked := true, progress := a.target }) ∧
    (p < a.target →
      updateProgress achievementId p s =
        { s with
          achievements := mupdate achievementId (fun x => { x with progress := p }) s.achievements
          log := s.log ++ [Ev.achievementProgress achievementId p a.target] }) ∧
    (p < a.target →
      mfind achievementId (updateProgress achievementId p s).achievements =
        some { a with progress := p }) := by
  refine ⟨?_, ?_, ?_, ?_⟩
  · intro hle
    simp [updateProgress, ha, hl, hle, unlockAchievement, mfind_mupdate_self, emit,
      mupdate_mupdate]
  · intro hle
    simp [updateProgress, ha, hl, hle, unlockAchievement, mfind_mupdate_self, emit,
      mupdate_mupdate]
  · intro hlt
    simp [updateProgress, ha, hl, not_le.2 hlt, emit]
  · intro hlt
    simp [updateProgress, ha, hl, not_le.2 hlt, emit, mfind_mupdate_self]

/-- Counterexample for C9 as stated: reaching the target publishes
`achievement:progress` too (after `achievement:unlocked`), although the
claim allows a progress event only when `progress < target`. -/
theorem updateProgress_emit_cex :
    (updateProgress "a1" 10 demoAchEngine).log =
      [Ev.achievementUnlocked "a1", Ev.achievementProgress "a1" 10 10] ∧
    ¬ ((10 : ℚ) < (demoAchievement).target) := by
  with_unfolding_all decide

/-- Witness for C9: applying the amended theorem to the demo achievement at
progress 10 (unlocking) and at progress 3 (plain progress). -/
theorem updateProgress_spec_witness :
    (demoAchievement.target ≤ (10 : ℚ) →
      mfind "a1" (updateProgress "a1" 10 demoAchEngine).achievements =
        some { demoAchievement with unlocked := true, progress := demoAchievement.target }) ∧
    ((3 : ℚ) < demoAchievement.target →
      mfind "a1" (updateProgress "a1" 3 demoAchEngine).achievements =
        some { demoAchievement with progress := 3 }) :=
  ⟨(updateProgress_spec "a1" 10 demoAchEngine demoAchievement
      (by with_unfolding_all rfl) (by with_unfolding_all rfl)).2.1,
   (updateProgress_spec "a1" 3 demoAchEngine demoAchievement
      (by with_unfolding_all rfl) (by with_unfolding_all rfl)).2.2.2⟩

/-- C10: registering an achievement never fails — a duplicate id silently
replaces the stored achievement, the old entry's unlocked flag and progress
included — whereas duplicate currency, upgrade and paradigm registration
all throw. -/
theorem addAchievement_replaces :
    (∀ (a old : Achievement) (s : Engine), mfind a.id s.achievements = some old →
      mfind a.id (addAchievement a s).achievements = some a) ∧
    (∀ (c : Currency) (s : Engine), mhas c.id s.currencies = true →
      ∃ e, addCurrency c s = .error e) ∧
    (∀ (u : Upgrade) (s : Engine), mhas u.id s.upgrades = true →
      ∃ e, addUpgrade u s = .error e) ∧
    (∀ (p : Paradigm) (s : Engine), mhas p.id s.paradigms = true →
      ∃ e, addParadigm p s = .error e) := by
  refine ⟨?_, ?_, ?_, ?_⟩
  · intro a old s _
    simp [addAchievement, mfind_mset_self]
  · intro c s h
    exact ⟨"Currency with ID " ++ c.id ++ " already exists", by simp [addCurrency, h]⟩
  · intro u s h
    exact ⟨"Upgrade with ID " ++ u.id ++ " already exists", by simp [addUpgrade, h]⟩
  · intro p s h
    exact ⟨"Paradigm with ID " ++ p.id ++ " already exists", by simp [addParadigm, h]⟩

/-- Witness for C10: re-registering `a1` replaces the achievement (progress
and unlocked flag of the old entry are gone), while duplicate gold, worker
and `p1` registrations throw. -/
theorem addAchievement_replaces_witness :
    mfind "a1" (addAchievement { demoAchievement with progress := 7, unlocked := true } demoAchEngine).achievements =
      some { demoAchievement with progress := 7, unlocked := true } ∧
    (∃ e, addCurrency (demoGold 5) (demoShop 0 0) = .error e) ∧
    (∃ e, addUpgrade (demoUpgrade 4) (demoShop 0 0) = .error e) ∧
    (∃ e, addParadigm (demoParadigm "p1" false 1) demoParaEngine = .error e) :=
  ⟨addAchievement_replaces.1 { demoAchievement with progress := 7, unlocked := true }
      demoAchievement demoAchEngine (by with_unfolding_all rfl),
   addAchievement_replaces.2.1 (demoGold 5) (demoShop 0 0) (by with_unfolding_all rfl),
   addAchievement_replaces.2.2.1 (demoUpgrade 4) (demoShop 0 0) (by with_unfolding_all rfl),
   addAchievement_replaces.2.2.2 (demoParadigm "p1" false 1) demoParaEngine (by with_unfolding_all rfl)⟩

/-! ## C1: non-negativity of currency amounts -/

/-- All stored currency amounts are non-negative. -/
def nonnegAmounts (s : Engine) : Prop :=
  ∀ x ∈ s.currencies, 0 ≤ x.2.amount

instance (s : Engine) : Decidable (nonnegAmounts s) :=
  List.decidableBAll _ s.currencies

/-- Every `add` in the sequence carries a non-negative delta. -/
def addDeltasNonneg (ops : List CurrencyOp) : Bool :=
  ops.all (fun op =>
    match op with
    | .add _ q => decide (0 ≤ q)
    | _ => true)

theorem currencySet_preserves_nonneg (currencyId : String) (amount : ℚ) (s s' : Engine)
    (h : currencySet currencyId amount s = .ok s') (hs : nonnegAmounts s) :
    nonnegAmounts s' := by
  cases hm : mfind currencyId s.currencies with
  | none => simp [currencySet, hm] at h
  | some c =>
    simp [currencySet, hm, emit] at h
    intro x hx
    rw [← h] at hx
    exact mupdate_forall (P := fun c : Currency => 0 ≤ c.amount) currencyId _ s.currencies hs
      (fun v _ => le_max_left 0 amount) x hx

theorem currencySubtract_preserves_nonneg (currencyId : String) (amount : ℚ) (s : Engine)
    (r : ℚ) (s' : Engine)
    (h : currencySubtract currencyId amount s = .ok (r, s')) (hs : nonnegAmounts s) :
    nonnegAmounts s' := by
  cases hm : mfind currencyId s.currencies with
  | none => simp [currencySubtract, hm] at h
  | some c =>
    simp [currencySubtract, hm, emit] at h
    intro x hx
    rw [← h.2] at hx
    exact mupdate_forall (P := fun c : Currency => 0 ≤ c.amount) currencyId _ s.currencies hs
      (fun v _ => le_max_left 0 _) x hx

theorem currencyAdd_preserves_nonneg (currencyId : String) (amount : ℚ) (s : Engine)
    (r : ℚ) (s' : Engine) (hq : 0 ≤ amount)
    (h : currencyAdd currencyId amount s = .ok (r, s')) (hs : nonnegAmounts s) :
    nonnegAmounts s' := by
  cases hm : mfind currencyId s.currencies with
  | none => simp [currencyAdd, hm] at h
  | some c =>
    simp [currencyAdd, hm, emit] at h
    intro x hx
    rw [← h.2] at hx
    have hc : 0 ≤ c.amount := hs (currencyId, c) (mfind_some_mem _ _ _ hm)
    exact mupdate_forall (P := fun c : Currency => 0 ≤ c.amount) currencyId _ s.currencies hs
      (fun v _ => add_nonneg hc hq) x hx

/-- C1 (amended): `set` and `subtract` clamp unconditionally, so each one
preserves non-negativity of all stored amounts; `add` does not clamp, and a
sequence of `set`/`add`/`subtract` operations keeps every amount
non-negative provided each `add` carries a non-negative delta. -/
theorem currency_clamp_nonneg :
    (∀ (currencyId : String) (amount : ℚ) (s s' : Engine),
      currencySet currencyId amount s = .ok s' → nonnegAmounts s → nonnegAmounts s') ∧
    (∀ (currencyId : String) (amount : ℚ) (s : Engine) (r : ℚ) (s' : Engine),
      currencySubtract currencyId amount s = .ok (r, s') → nonnegAmounts s → nonnegAmounts s') ∧
    (∀ (ops : List CurrencyOp) (s s' : Engine),
      nonnegAmounts s → addDeltasNonneg ops = true →
      runCurrencyOps ops s = .ok s' → nonnegAmounts s') := by
  refine ⟨currencySet_preserves_nonneg, currencySubtract_preserves_nonneg, ?_⟩
  intro ops
  induction ops with
  | nil =>
    intro s s' hs _ hrun
    simp [runCurrencyOps] at hrun
    rwa [← hrun]
  | cons op rest ih =>
    intro s s' hs hdelta hrun
    have hrest : addDeltasNonneg rest = true := by
      simp [addDeltasNonneg, List.all_cons] at hdelta
      simpa [addDeltasNonneg] using hdelta.2
    cases hstep : runCurrencyOp op s with
    | error e => simp [runCurrencyOps, hstep] at hrun
    | ok s₁ =>
      simp only [runCurrencyOps, hstep] at hrun
      have hs₁ : nonnegAmounts s₁ := by
        cases op with
        | set currencyId amount =>
          exact currencySet_preserves_nonneg currencyId amount s s₁ hstep hs
        | add currencyId amount =>
          have hq : 0 ≤ amount := by
            simp [addDeltasNonneg, List.all_cons] at hdelta
            exact hdelta.1
          simp only [runCurrencyOp] at hstep
          cases hadd : currencyAdd currencyId amount s with
          | error e => simp [hadd, Except.map] at hstep
          | ok p =>
            simp [hadd, Except.map] at hstep
            exact currencyAdd_preserves_nonneg currencyId amount s p.1 s₁ hq
              (by rw [hadd, ← hstep]) hs
        | sub currencyId amount =>
          simp only [runCurrencyOp] at hstep
          cases hsub : currencySubtract currencyId amount s with
          | error e => simp [hsub, Except.map] at hstep
          | ok p =>
            simp [hsub, Except.map] at hstep
            exact currencySubtract_preserves_nonneg currencyId amount s p.1 s₁
              (by rw [hsub, ← hstep]) hs
      exact ih s₁ s' hs₁ hrest hrun

/-- The sequence driven through `runCurrencyOps` in the C1 witness. -/
def demoOps : List CurrencyOp :=
  [.set "gold" (-3), .sub "gold" 100, .add "gold" 2]

/-- The engine state `demoOps` produces from 50 gold: the set clamps to 0,
the subtract clamps to 0, the add lands at 2. -/
def demoOpsResult : Engine :=
  { initEngine with
    currencies := [("gold", demoGold 2)]
    upgrades := [("worker", demoUpgrade 0)]
    log := [Ev.currencyChanged "gold" 50 0 (-50),
            Ev.currencyChanged "gold" 0 0 (-100),
            Ev.currencyChanged "gold" 0 2 2] }

/-- Witness for C1: the demo sequence (negative set, oversized subtract,
positive add) keeps gold non-negative. -/
theorem currency_clamp_nonneg_witness :
    nonnegAmounts (demoShop 50 0) ∧
    addDeltasNonneg demoOps = true ∧
    runCurrencyOps demoOps (demoShop 50 0) = .ok demoOpsResult ∧
    nonnegAmounts demoOpsResult :=
  ⟨by with_unfolding_all decide, by with_unfolding_all rfl, by with_unfolding_all rfl,
   currency_clamp_nonneg.2.2 demoOps (demoShop 50 0) demoOpsResult
     (by with_unfolding_all decide) (by with_unfolding_all rfl) (by with_unfolding_all rfl)⟩

/-- The engine state a single `add('gold', -5)` produces from 0 gold. -/
def negGoldEngine : Engine :=
  { initEngine with
    currencies := [("gold", demoGold (-5))]
    upgrades := [("worker", demoUpgrade 0)]
    log := [Ev.currencyChanged "gold" 0 (-5) (-5)] }

/-- Counterexample for C1 as stated: `add` does not clamp, so an add with a
negative delta drives the stored amount below zero. -/
theorem currency_add_negative_cex :
    runCurrencyOps [CurrencyOp.add "gold" (-5)] (demoShop 0 0) = .ok negGoldEngine ∧
    currencyGet "gold" negGoldEngine = -5 ∧
    ¬ nonnegAmounts negGoldEngine := by
  with_unfolding_all decide

/-! ## C7: affordable purchase -/

/-- C7: purchasing a registered upgrade whose backing currency covers the
computed cost returns `true`, clamps nothing (the deduction is exactly the
cost), increments the level by exactly 1, sets the purchased flag, and
publishes `currency:changed` followed by `upgrade:purchased` (whose level
and cost fields are the new level and the charged cost) and
`upgrade:leveled`. -/
theorem purchase_affordable (upgradeId : String) (s : Engine) (u : Upgrade) (c : Currency)
    (hu : mfind upgradeId s.upgrades = some u)
    (hc : mfind u.currencyId s.currencies = some c)
    (haff : calculateCost u ≤ c.amount) :
    purchase upgradeId s = .ok (true,
      { s with
        currencies :=
          mupdate u.currencyId (fun x => { x with amount := c.amount - calculateCost u }) s.currencies
        upgrades :=
          mupdate upgradeId (fun x => { x with level := x.level + 1, purchased := true }) s.upgrades
        log := s.log ++
          [Ev.currencyChanged u.currencyId c.amount (c.amount - calculateCost u) (-(calculateCost u)),
           Ev.upgradePurchased upgradeId (u.level + 1) (calculateCost u),
           Ev.upgradeLeveled upgradeId (u.level + 1) u.effect] }) ∧
    mfind u.currencyId
        (mupdate u.currencyId (fun x => { x with amount := c.amount - calculateCost u }) s.currencies) =
      some { c with amount := c.amount - calculateCost u } ∧
    mfind upgradeId
        (mupdate upgradeId (fun x => { x with level := x.level + 1, purchased := true }) s.upgrades) =
      some { u with level := u.level + 1, purchased := true } := by
  have hget : currencyGet u.currencyId s = c.amount := by
    simp [currencyGet, hc]
  have hhas : currencyHas u.currencyId (calculateCost u) s = true := by
    simp [currencyHas, hget]
    exact haff
  have hmax : max 0 (c.amount - calculateCost u) = c.amount - calculateCost u :=
    max_eq_right (by linarith)
  refine ⟨?_, ?_, ?_⟩
  · simp [purchase, hu, hhas, currencySubtract, hc, emit, hmax]
  · simp [mfind_mupdate_self, hc]
  · simp [mfind_mupdate_self, hu]

/-- Witness for C7: buying the worker upgrade with exactly 100 gold spends
all the gold and raises the level to 1. -/
theorem purchase_affordable_witness :
    mfind "worker" (demoShop 100 0).upgrades = some (demoUpgrade 0) ∧
    mfind (demoUpgrade 0).currencyId (demoShop 100 0).currencies = some (demoGold 100) ∧
    calculateCost (demoUpgrade 0) ≤ (demoGold 100).amount ∧
    (mfind (demoUpgrade 0).currencyId
        (mupdate (demoUpgrade 0).currencyId
          (fun x => { x with amount := (demoGold 100).amount - calculateCost (demoUpgrade 0) })
          (demoShop 100 0).currencies) =
      some { demoGold 100 with amount := (demoGold 100).amount - calculateCost (demoUpgrade 0) } ∧
     mfind "worker"
        (mupdate "worker" (fun x => { x with level := x.level + 1, purchased := true })
          (demoShop 100 0).upgrades) =
      some { demoUpgrade 0 with level := 1, purchased := true }) :=
  ⟨by with_unfolding_all rfl, by with_unfolding_all rfl, by with_unfolding_all decide,
   (purchase_affordable "worker" (demoShop 100 0) (demoUpgrade 0) (demoGold 100)
      (by with_unfolding_all rfl) (by with_unfolding_all rfl) (by with_unfolding_all decide)).2⟩

/-! ## C5: paradigm exclusivity -/

instance (o : Option String) (P : Prop) (f : String → Prop)
    [hP : Decidable P] [hf : ∀ id, Decidable (f id)] : Decidable (o.elim P f) :=
  match o with
  | none => hP
  | some id => hf id

/-- The paradigm-manager invariant: keys are distinct and non-empty, and the
`currentParadigm` pointer is faithful — when it is unset every stored
paradigm is inactive, and when it is set it holds a non-empty id whose
stored paradigm is the unique active one. -/
def pinv (s : Engine) : Prop :=
  (s.paradigms.map Prod.fst).Nodup ∧
  (∀ x ∈ s.paradigms, x.1 ≠ "") ∧
  s.currentParadigm.elim
    (∀ x ∈ s.paradigms, x.2.active = false)
    (fun id => id ≠ "" ∧ (mfind id s.paradigms).map Paradigm.active = some true ∧
      ∀ x ∈ s.paradigms, x.2.active = true → x.1 = id)

instance (s : Engine) : Decidable (pinv s) := by
  unfold pinv
  infer_instance

/-- Every paradigm registered by the sequence carries a non-empty id. -/
def regIdsNonempty (ops : List ParadigmOp) : Bool :=
  ops.all (fun op =>
    match op with
    | .reg p => !(p.id == "")
    | .switch _ => true)

theorem addParadigm_pinv (p : Paradigm) (s s' : Engine) (hp : p.id ≠ "")
    (h : addParadigm p s = .ok s') (hs : pinv s) : pinv s' := by
  obtain ⟨hnd, hne, hcur⟩ := hs
  have hmhas : mhas p.id s.paradigms = false := by
    cases hm : mhas p.id s.paradigms
    · rfl
    · simp [addParadigm, hm] at h
  have hnone : mfind p.id s.paradigms = none := by
    cases hm : mfind p.id s.paradigms with
    | none => rfl
    | some q => simp [mhas, hm] at hmhas
  have hndset : ∀ q : Paradigm, ((mset p.id q s.paradigms).map Prod.fst).Nodup := by
    intro q
    rw [mset_keys_of_absent p.id q s.paradigms hnone]
    rw [List.nodup_append]
    exact ⟨hnd, List.nodup_singleton _,
      by simpa using fun hk => not_mem_keys_of_mfind_none p.id s.paradigms hnone hk⟩
  have hneset : ∀ q : Paradigm, ∀ x ∈ mset p.id q s.paradigms, x.1 ≠ "" := by
    intro q x hx
    rcases mem_mset p.id q s.paradigms x hx with hh | hh
    · rw [hh]; exact hp
    · exact hne x hh
  by_cases hact : p.active = true
  · cases hcurv : s.currentParadigm with
    | none =>
      have hcc : (p.active && decide (s.currentParadigm = none)) = true := by
        simp [hact, hcurv]
      simp only [addParadigm, hmhas, Bool.false_eq_true, if_false, hcc, if_true] at h
      obtain rfl := Except.ok.inj h
      rw [hcurv] at hcur
      simp only [Option.elim] at hcur
      refine ⟨hndset p, hneset p, ?_⟩
      simp only [Option.elim]
      refine ⟨hp, by simp [mfind_mset_self, hact], ?_⟩
      intro x hx hxact
      rcases mem_mset p.id p s.paradigms x hx with hh | hh
      · rw [hh]
      · exact absurd hxact (by simp [hcur x hh])
    | some id =>
      simp only [addParadigm, hmhas, Bool.false_eq_true, if_false, hact, hcurv,
        decide_eq_true_eq, Bool.and_eq_true, reduceCtorEq, and_false, if_false,
        if_true] at h
      obtain rfl := Except.ok.inj h
      rw [hcurv] at hcur
      simp only [Option.elim] at hcur
      obtain ⟨hid, hfind, huniq⟩ := hcur
      have hpidne : p.id ≠ id := by
        intro hh
        rw [hh] at hnone
        rw [hnone] at hfind
        simp at hfind
      refine ⟨hndset _, hneset _, ?_⟩
      simp only [Option.elim]
      refine ⟨hid, by rwa [mfind_mset_ne _ _ _ _ hpidne], ?_⟩
      intro x hx hxact
      rcases mem_mset p.id _ s.paradigms x hx with hh | hh
      · rw [hh] at hxact
        simp at hxact
      · exact huniq x hh hxact
  · have hactf : p.active = false := by
      cases hq : p.active
      · rfl
      · exact absurd hq hact
    simp only [addParadigm, hmhas, Bool.false_eq_true, if_false, hactf,
      Bool.false_and, if_true] at h
    obtain rfl := Except.ok.inj h
    refine ⟨hndset _, hneset _, ?_⟩
    cases hcurv : s.currentParadigm with
    | none =>
      rw [hcurv] at hcur
      simp only [Option.elim] at hcur ⊢
      intro x hx
      rcases mem_mset p.id p s.paradigms x hx with hh | hh
      · rw [hh]; exact hactf
      · exact hcur x hh
    | some id =>
      rw [hcurv] at hcur
      simp only [Option.elim] at hcur ⊢
      obtain ⟨hid, hfind, huniq⟩ := hcur
      have hpidne : p.id ≠ id := by
        intro hh
        rw [hh] at hnone
        rw [hnone] at hfind
        simp at hfind
      refine ⟨hid, by rwa [mfind_mset_ne _ _ _ _ hpidne], ?_⟩
      intro x hx hxact
      rcases mem_mset p.id p s.paradigms x hx with hh | hh
      · rw [hh] at hxact
        rw [hactf] at hxact
        simp at hxact
      · exact huniq x hh hxact

theorem switchTo_pinv (paradigmId : String) (s s' : Engine)
    (h : switchTo paradigmId s = .ok s') (hs : pinv s) : pinv s' := by
  obtain ⟨hnd, hne, hcur⟩ := hs
  have hmhas : mhas paradigmId s.paradigms = true := by
    cases hm : mhas paradigmId s.paradigms
    · simp [switchTo, hm] at h
    · rfl
  obtain ⟨q, hq⟩ : ∃ q, mfind paradigmId s.paradigms = some q := by
    cases hm : mfind paradigmId s.paradigms with
    | none => simp [mhas, hm] at hmhas
    | some q => exact ⟨q, rfl⟩
  have hpne : paradigmId ≠ "" := hne (paradigmId, q) (mfind_some_mem _ _ _ hq)
  cases hcurv : s.currentParadigm with
  | none =>
    rw [hcurv] at hcur
    simp only [Option.elim] at hcur
    simp only [switchTo, hmhas, Bool.not_true, Bool.false_eq_true, if_false, hcurv,
      optTruthy, Bool.false_eq_true, if_false, hq, emit] at h
    obtain rfl := Except.ok.inj h
    refine ⟨by simpa [mupdate_keys] using hnd, ?_, ?_⟩
    · intro x hx
      rcases mem_mupdate_nodup paradigmId _ s.paradigms hnd x hx with hh | ⟨v, _, hxv⟩
      · exact hne x hh.1
      · rw [hxv]; exact hpne
    · simp only [Option.elim]
      refine ⟨hpne, by simp [mfind_mupdate_self, hq], ?_⟩
      intro x hx hxa
      rcases mem_mupdate_nodup paradigmId _ s.paradigms hnd x hx with hh | ⟨v, _, hxv⟩
      · exact absurd hxa (by simp [hcur x hh.1])
      · rw [hxv]
  | some id =>
    rw [hcurv] at hcur
    simp only [Option.elim] at hcur
    obtain ⟨hid, hfind, huniq⟩ := hcur
    have hidb : (id == "") = false := by
      simpa using hid
    have htr : optTruthy (some id) = true := by
      simp [optTruthy, hidb]
    have hfind₁ : ∀ k, mfind k (mupdate id (fun p => { p with active := false }) s.paradigms) =
        (if k = id then (mfind id s.paradigms).map (fun p => { p with active := false })
         else mfind k s.paradigms) := by
      intro k
      by_cases hk : k = id
      · subst hk
        simp [mfind_mupdate_self]
      · simp [hk, mfind_mupdate_ne k id _ s.paradigms (fun hh => hk hh.symm)]
    have hndl₁ : ((mupdate id (fun p => { p with active := false }) s.paradigms).map Prod.fst).Nodup := by
      simpa [mupdate_keys] using hnd
    have hq₁ : ∃ q₁, mfind paradigmId (mupdate id (fun p => { p with active := false }) s.paradigms) =
        some q₁ := by
      rw [hfind₁ paradigmId]
      by_cases hk : paradigmId = id
      · obtain ⟨w, hw⟩ : ∃ w, mfind id s.paradigms = some w := by
          cases hm : mfind id s.paradigms with
          | none => rw [hm] at hfind; simp at hfind
          | some w => exact ⟨w, rfl⟩
        exact ⟨{ w with active := false }, by simp [hk, hw]⟩
      · exact ⟨q, by simp [hk, hq]⟩
    obtain ⟨q₁, hq₁⟩ := hq₁
    have hinact : ∀ x ∈ mupdate id (fun p => { p with active := false }) s.paradigms,
        x.2.active = false := by
      intro x hx
      rcases mem_mupdate_nodup id _ s.paradigms hnd x hx with hh | ⟨v, _, hxv⟩
      · cases hxa : x.2.active
        · rfl
        · exact absurd (huniq x hh.1 hxa) hh.2
      · rw [hxv]
    have hnel₁ : ∀ x ∈ mupdate id (fun p => { p with active := false }) s.paradigms,
        x.1 ≠ "" := by
      intro x hx
      rcases mem_mupdate_nodup id _ s.paradigms hnd x hx with hh | ⟨v, _, hxv⟩
      · exact hne x hh.1
      · rw [hxv]; exact hid
    simp only [switchTo, hmhas, Bool.not_true, Bool.false_eq_true, if_false, hcurv,
      htr, if_true, hq₁, emit] at h
    obtain rfl := Except.ok.inj h
    refine ⟨by simpa [mupdate_keys] using hnd, ?_, ?_⟩
    · intro x hx
      rcases mem_mupdate_nodup paradigmId _ _ hndl₁ x hx with hh | ⟨v, _, hxv⟩
      · exact hnel₁ x hh.1
      · rw [hxv]; exact hpne
    · simp only [Option.elim]
      refine ⟨hpne, by simp [mfind_mupdate_self, hq₁], ?_⟩
      intro x hx hxa
      rcases mem_mupdate_nodup paradigmId _ _ hndl₁ x hx with hh | ⟨v, _, hxv⟩
      · exact absurd hxa (by simp [hinact x hh.1])
      · rw [hxv]

theorem pinv_at_most_one (s : Engine) (hs : pinv s) :
    ∀ x ∈ s.paradigms, ∀ y ∈ s.paradigms, x.2.active = true → y.2.active = true → x = y := by
  obtain ⟨hnd, hne, hcur⟩ := hs
  intro x hx y hy hxa hya
  cases hcurv : s.currentParadigm with
  | none =>
    rw [hcurv] at hcur
    simp only [Option.elim] at hcur
    exact absurd hxa (by simp [hcur x hx])
  | some id =>
    rw [hcurv] at hcur
    simp only [Option.elim] at hcur
    obtain ⟨_, _, huniq⟩ := hcur
    have hxk := huniq x hx hxa
    have hyk := huniq y hy hya
    have hxm : (id, x.2) ∈ s.paradigms := by
      rw [← hxk]
      simpa [Prod.mk.eta] using hx
    have hym : (id, y.2) ∈ s.paradigms := by
      rw [← hyk]
      simpa [Prod.mk.eta] using hy
    have hv := mem_values_eq_of_nodup id s.paradigms x.2 y.2 hnd hxm hym
    calc x = (x.1, x.2) := by rw [Prod.mk.eta]
    _ = (id, y.2) := by rw [hxk, hv]
    _ = (y.1, y.2) := by rw [hyk]
    _ = y := by rw [Prod.mk.eta]

theorem pinv_mult_active (s : Engine) (hs : pinv s) :
    ∀ x ∈ s.paradigms, x.2.active = true → getCurrentMultiplier s = x.2.productionMultiplier := by
  obtain ⟨hnd, hne, hcur⟩ := hs
  intro x hx hxa
  cases hcurv : s.currentParadigm with
  | none =>
    rw [hcurv] at hcur
    simp only [Option.elim] at hcur
    exact absurd hxa (by simp [hcur x hx])
  | some id =>
    rw [hcurv] at hcur
    simp only [Option.elim] at hcur
    obtain ⟨hid, hfind, huniq⟩ := hcur
    have hxk := huniq x hx hxa
    have hxm : (id, x.2) ∈ s.paradigms := by
      rw [← hxk]
      simpa [Prod.mk.eta] using hx
    have hfx : mfind id s.paradigms = some x.2 :=
      mfind_eq_of_mem_nodup id s.paradigms x.2 hnd hxm
    have hidb : (id == "") = false := by simpa using hid
    simp [getCurrentMultiplier, getCurrent, hcurv, optTruthy, hidb, hfx]

theorem pinv_mult_none (s : Engine) (hs : pinv s)
    (hh : ∀ x ∈ s.paradigms, x.2.active = false) : getCurrentMultiplier s = 1 := by
  obtain ⟨hnd, hne, hcur⟩ := hs
  cases hcurv : s.currentParadigm with
  | none => simp [getCurrentMultiplier, getCurrent, hcurv, optTruthy]
  | some id =>
    rw [hcurv] at hcur
    simp only [Option.elim] at hcur
    obtain ⟨hid, hfind, _⟩ := hcur
    obtain ⟨w, hw⟩ : ∃ w, mfind id s.paradigms = some w := by
      cases hm : mfind id s.paradigms with
      | none => rw [hm] at hfind; simp at hfind
      | some w => exact ⟨w, rfl⟩
    rw [hw] at hfind
    simp at hfind
    exact absurd (hh (id, w) (mfind_some_mem _ _ _ hw)) (by simp [hfind])

/-- C5 (amended): starting from any state satisfying the paradigm-manager
invariant (the fresh engine in particular), any sequence of `register` /
`switchTo` calls in which every registered paradigm carries a non-empty id
preserves the invariant; hence at most one paradigm is active at any time,
`getCurrentMultiplier()` returns the active paradigm's multiplier, and it
returns 1 when none is active. With an empty-string id the claim fails (see
the counterexample): the manager treats `""` as "no current paradigm". -/
theorem paradigm_invariant :
    pinv initEngine ∧
    ∀ (ops : List ParadigmOp) (s s' : Engine),
      pinv s → regIdsNonempty ops = true → runParadigmOps ops s = .ok s' →
      pinv s' ∧
      (∀ x ∈ s'.paradigms, ∀ y ∈ s'.paradigms, x.2.active = true → y.2.active = true → x = y) ∧
      (∀ x ∈ s'.paradigms, x.2.active = true → getCurrentMultiplier s' = x.2.productionMultiplier) ∧
      ((∀ x ∈ s'.paradigms, x.2.active = false) → getCurrentMultiplier s' = 1) := by
  have hinit : pinv initEngine := by
    refine ⟨by simp [initEngine], by simp [initEngine], ?_⟩
    simp [initEngine, Option.elim]
  have hrun : ∀ (ops : List ParadigmOp) (s s' : Engine),
      pinv s → regIdsNonempty ops = true → runParadigmOps ops s = .ok s' → pinv s' := by
    intro ops
    induction ops with
    | nil =>
      intro s s' hs _ h
      simp [runParadigmOps] at h
      rwa [← h]
    | cons op rest ih =>
      intro s s' hs hreg hrunh
      simp only [regIdsNonempty, List.all_cons, Bool.and_eq_true] at hreg
      cases hstep : runParadigmOp op s with
      | error e => simp [runParadigmOps, hstep] at hrunh
      | ok s₁ =>
        simp only [runParadigmOps, hstep] at hrunh
        have hs₁ : pinv s₁ := by
          cases op with
          | reg p =>
            have hp : p.id ≠ "" := by simpa using hreg.1
            exact addParadigm_pinv p s s₁ hp hstep hs
          | switch pid => exact switchTo_pinv pid s s₁ hstep hs
        exact ih s₁ s' hs₁ hreg.2 hrunh
  refine ⟨hinit, ?_⟩
  intro ops s s' hs hreg hrunh
  have hs' := hrun ops s s' hs hreg hrunh
  exact ⟨hs', pinv_at_most_one s' hs', pinv_mult_active s' hs',
    fun hh => pinv_mult_none s' hs' hh⟩

/-- The paradigm sequence driven in the C5 witness. -/
def demoParaOps : List ParadigmOp :=
  [.reg (demoParadigm "p1" true 2), .reg (demoParadigm "p2" true 3), .switch "p2"]

/-- The engine `demoParaOps` produces from the fresh engine: `p2` active. -/
def paraOpsResult : Engine :=
  { initEngine with
    paradigms := [("p1", demoParadigm "p1" false 2), ("p2", demoParadigm "p2" true 3)]
    currentParadigm := some "p2"
    log := [Ev.paradigmChanged "p2" "Phase" 3] }

/-- Witness for C5: two registrations (both asking to be active) and a
switch leave exactly one active paradigm and multiplier 3. -/
theorem paradigm_invariant_witness :
    regIdsNonempty demoParaOps = true ∧
    runParadigmOps demoParaOps initEngine = .ok paraOpsResult ∧
    pinv paraOpsResult ∧
    getCurrentMultiplier paraOpsResult = 3 :=
  ⟨by with_unfolding_all rfl, by with_unfolding_all rfl,
   (paradigm_invariant.2 demoParaOps initEngine paraOpsResult paradigm_invariant.1
      (by with_unfolding_all rfl) (by with_unfolding_all rfl)).1,
   by with_unfolding_all rfl⟩

/-- A paradigm registered under the empty-string id. -/
def emptyIdParadigm : Paradigm := demoParadigm "" true 2

/-- The state after registering `emptyIdParadigm` on a fresh engine. -/
def cexParaEngine : Engine :=
  { initEngine with paradigms := [("", emptyIdParadigm)], currentParadigm := some "" }

/-- Counterexample for C5 as stated: with an empty-string paradigm id the
JS-truthiness guards misfire — the registered paradigm is active with
multiplier 2 yet `getCurrentMultiplier()` returns 1, and a later register
and switch leave TWO paradigms active at once. -/
theorem paradigm_empty_id_cex :
    runParadigmOps [ParadigmOp.reg emptyIdParadigm] initEngine = .ok cexParaEngine ∧
    ("", emptyIdParadigm) ∈ cexParaEngine.paradigms ∧
    emptyIdParadigm.active = true ∧
    emptyIdParadigm.productionMultiplier = 2 ∧
    getCurrentMultiplier cexParaEngine = 1 ∧
    (runParadigmOps [ParadigmOp.reg emptyIdParadigm,
        ParadigmOp.reg (demoParadigm "q" true 3), ParadigmOp.switch "q"] initEngine).map
      (fun t => (t.paradigms.filter (fun x => x.2.active)).length) = .ok 2 := by
  with_unfolding_all decide

/-! ## C6: production tick -/

/-- How much one tick adds to a currency: `rate * (deltaTimeMs/1000) * m`
when a positive rate is configured, 0 otherwise. -/
def tickContribution (deltaTimeMs m : ℚ) (rates : List (String × ℚ)) (currencyId : String) : ℚ :=
  match mfind currencyId rates with
  | some rate => if 0 < rate then rate * (deltaTimeMs / 1000) * m else 0
  | none => 0

/-- Every positive-rate entry names a registered currency. -/
def ratesRegistered (s : Engine) : Bool :=
  s.productionRates.all (fun x => !(decide (0 < x.2)) || mhas x.1 s.currencies)

theorem currencyAdd_ok (currencyId : String) (amount : ℚ) (s : Engine) (c : Currency)
    (hc : mfind currencyId s.currencies = some c) :
    currencyAdd currencyId amount s = .ok (c.amount + amount,
      { s with
        currencies := mupdate currencyId (fun x => { x with amount := c.amount + amount }) s.currencies
        log := s.log ++ [Ev.currencyChanged currencyId c.amount (c.amount + amount) amount] }) := by
  simp [currencyAdd, hc, emit]

theorem tickLoop_spec (ds m : ℚ) (rates : List (String × ℚ)) (s : Engine)
    (hnd : (rates.map Prod.fst).Nodup)
    (hreg : ∀ x ∈ rates, 0 < x.2 → mhas x.1 s.currencies = true) :
    ∃ s' pre, tickLoop ds m rates s = .ok s' ∧
      (∀ cid, currencyGet cid s' = currencyGet cid s +
        (match mfind cid rates with
         | some rate => if 0 < rate then rate * ds * m else 0
         | none => 0)) ∧
      (∀ cid, mhas cid s'.currencies = mhas cid s.currencies) ∧
      s'.log = s.log ++ pre ∧
      (∀ e ∈ pre, ∀ d, e ≠ Ev.productionTick d) := by
  induction rates generalizing s with
  | nil =>
    refine ⟨s, [], by simp [tickLoop], ?_, fun _ => rfl, by simp, by simp⟩
    intro cid
    simp [mfind]
  | cons hd tl ih =>
    obtain ⟨c₀, r₀⟩ := hd
    rw [List.map_cons, List.nodup_cons] at hnd
    by_cases hr : 0 < r₀
    · have hm : mhas c₀ s.currencies = true :=
        hreg (c₀, r₀) (List.mem_cons_self _ _) hr
      obtain ⟨c, hc⟩ : ∃ c, mfind c₀ s.currencies = some c := by
        cases hmm : mfind c₀ s.currencies with
        | none => simp [mhas, hmm] at hm
        | some c => exact ⟨c, rfl⟩
      have hadd := currencyAdd_ok c₀ (r₀ * ds * m) s c hc
      have hreg₁ : ∀ x ∈ tl, 0 < x.2 →
          mhas x.1 { s with
            currencies := mupdate c₀ (fun x => { x with amount := c.amount + r₀ * ds * m }) s.currencies
            log := s.log ++ [Ev.currencyChanged c₀ c.amount (c.amount + r₀ * ds * m) (r₀ * ds * m)] }.currencies = true := by
        intro x hx hxr
        simpa [mhas_mupdate] using hreg x (List.mem_cons_of_mem _ hx) hxr
      obtain ⟨s', pre', hrun', hget', hhas', hlog', hpre'⟩ := ih _ hnd.2 hreg₁
      refine ⟨s', Ev.currencyChanged c₀ c.amount (c.amount + r₀ * ds * m) (r₀ * ds * m) :: pre',
        ?_, ?_, ?_, ?_, ?_⟩
      · simp only [tickLoop, if_pos hr, hadd]
        exact hrun'
      · intro cid
        by_cases hcid : cid = c₀
        · subst hcid
          have htl : mfind cid tl = none :=
            mfind_eq_none_of_not_mem_keys cid tl hnd.1
          rw [hget' cid, htl]
          simp only [mfind, if_pos rfl, if_pos hr]
          have : currencyGet cid { s with
              currencies := mupdate cid (fun x => { x with amount := c.amount + r₀ * ds * m }) s.currencies
              log := s.log ++ [Ev.currencyChanged cid c.amount (c.amount + r₀ * ds * m) (r₀ * ds * m)] } =
              c.amount + r₀ * ds * m := by
            simp [currencyGet, mfind_mupdate_self, hc]
          rw [this]
          simp [currencyGet, hc, hr]
        · have hne : c₀ ≠ cid := fun hh => hcid hh.symm
          have hskip : mfind cid (( c₀, r₀) :: tl) = mfind cid tl := by
            simp [mfind, hne]
          rw [hget' cid, hskip]
          have : currencyGet cid { s with
              currencies := mupdate c₀ (fun x => { x with amount := c.amount + r₀ * ds * m }) s.currencies
              log := s.log ++ [Ev.currencyChanged c₀ c.amount (c.amount + r₀ * ds * m) (r₀ * ds * m)] } =
              currencyGet cid s := by
            simp [currencyGet, mfind_mupdate_ne cid c₀ _ s.currencies hne]
          rw [this]
      · intro cid
        rw [hhas' cid]
        simp [mhas_mupdate]
      · rw [hlog']
        simp
      · intro e he d
        rcases List.mem_cons.1 he with he | he
        · rw [he]
          intro hh
          cases hh
        · exact hpre' e he d
    · have hreg₁ : ∀ x ∈ tl, 0 < x.2 → mhas x.1 s.currencies = true :=
        fun x hx hxr => hreg x (List.mem_cons_of_mem _ hx) hxr
      obtain ⟨s', pre', hrun', hget', hhas', hlog', hpre'⟩ := ih s hnd.2 hreg₁
      refine ⟨s', pre', ?_, ?_, hhas', hlog', hpre'⟩
      · simp only [tickLoop, if_neg hr]
        exact hrun'
      · intro cid
        by_cases hcid : cid = c₀
        · subst hcid
          have htl : mfind cid tl = none :=
            mfind_eq_none_of_not_mem_keys cid tl hnd.1
          rw [hget' cid, htl]
          simp [mfind, if_neg hr]
        · have hne : c₀ ≠ cid := fun hh => hcid hh.symm
          have hskip : mfind cid ((c₀, r₀) :: tl) = mfind cid tl := by
            simp [mfind, hne]
          rw [hget' cid, hskip]

/-- C6: `tick(deltaTimeMs)` adds `rate * (deltaTimeMs/1000) * paradigmMultiplier`
to every currency with a positive configured rate, leaves every other
balance alone, and publishes exactly one `production:tick` event, after all
the balance changes of the tick. -/
theorem tick_spec (deltaTimeMs : ℚ) (s : Engine)
    (hnd : (s.productionRates.map Prod.fst).Nodup)
    (hreg : ratesRegistered s = true) :
    ∃ s' pre, tick deltaTimeMs s = .ok s' ∧
      (∀ cid, currencyGet cid s' = currencyGet cid s +
        tickContribution deltaTimeMs (getCurrentMultiplier s) s.productionRates cid) ∧
      s'.log = s.log ++ pre ++ [Ev.productionTick deltaTimeMs] ∧
      (∀ e ∈ pre, ∀ d, e ≠ Ev.productionTick d) := by
  have hreg' : ∀ x ∈ s.productionRates, 0 < x.2 → mhas x.1 s.currencies = true := by
    intro x hx hxr
    have := List.all_eq_true.1 hreg x hx
    simpa [hxr] using this
  obtain ⟨s₁, pre, hrun, hget, _, hlog, hpre⟩ :=
    tickLoop_spec (deltaTimeMs / 1000) (getCurrentMultiplier s) s.productionRates s hnd hreg'
  refine ⟨emit (.productionTick deltaTimeMs) s₁, pre, ?_, ?_, ?_, hpre⟩
  · simp only [tick, hrun]
  · intro cid
    have : currencyGet cid (emit (.productionTick deltaTimeMs) s₁) = currencyGet cid s₁ := by
      simp [currencyGet, emit]
    rw [this, hget cid]
    rfl
  · simp [emit, hlog]

/-- The engine in the C6 witness: gold at 0 with rate 10/sec, paradigm
multiplier 2. -/
def demoTickEngine : Engine :=
  { initEngine with
    currencies := [("gold", demoGold 0)]
    productionRates := [("gold", 10)]
    paradigms := [("p1", demoParadigm "p1" true 2)]
    currentParadigm := some "p1" }

/-- Witness for C6: `tick(1000)` at rate 10 and multiplier 2 adds exactly
20 gold. -/
theorem tick_spec_witness :
    (demoTickEngine.productionRates.map Prod.fst).Nodup ∧
    ratesRegistered demoTickEngine = true ∧
    (∃ s' pre, tick 1000 demoTickEngine = .ok s' ∧
      (∀ cid, currencyGet cid s' = currencyGet cid demoTickEngine +
        tickContribution 1000 (getCurrentMultiplier demoTickEngine)
          demoTickEngine.productionRates cid) ∧
      s'.log = demoTickEngine.log ++ pre ++ [Ev.productionTick 1000] ∧
      (∀ e ∈ pre, ∀ d, e ≠ Ev.productionTick d)) ∧
    (tick 1000 demoTickEngine).map (fun t => currencyGet "gold" t) = .ok 20 :=
  ⟨by with_unfolding_all decide, by with_unfolding_all rfl,
   tick_spec 1000 demoTickEngine (by with_unfolding_all decide) (by with_unfolding_all rfl),
   by with_unfolding_all rfl⟩

/-! ## C8: the click counter across save/load -/

theorem applyCurrencies_ok (l : List (String × ℚ)) (s : Engine)
    (h : ∀ x ∈ l, mhas x.1 s.currencies = true) :
    ∃ s', applyCurrencies l s = (s', true) ∧
      (∀ k, mhas k s'.currencies = mhas k s.currencies) ∧
      s'.upgrades = s.upgrades ∧ s'.paradigms = s.paradigms ∧
      s'.currentParadigm = s.currentParadigm ∧ s'.achievements = s.achievements ∧
      s'.totalClicks = s.totalClicks := by
  induction l generalizing s with
  | nil => exact ⟨s, by simp [applyCurrencies], fun _ => rfl, rfl, rfl, rfl, rfl, rfl⟩
  | cons hd tl ih =>
    obtain ⟨cid, amt⟩ := hd
    have hm : mhas cid s.currencies = true := h (cid, amt) (List.mem_cons_self _ _)
    obtain ⟨c, hc⟩ : ∃ c, mfind cid s.currencies = some c := by
      cases hmm : mfind cid s.currencies with
      | none => simp [mhas, hmm] at hm
      | some c => exact ⟨c, rfl⟩
    have hstep : currencySet cid amt s = .ok
        { s with
          currencies := mupdate cid (fun x => { x with amount := max 0 amt }) s.currencies
          log := s.log ++ [Ev.currencyChanged cid c.amount (max 0 amt) (max 0 amt - c.amount)] } := by
      simp [currencySet, hc, emit]
    have htl : ∀ x ∈ tl, mhas x.1
        ({ s with
          currencies := mupdate cid (fun x => { x with amount := max 0 amt }) s.currencies
          log := s.log ++ [Ev.currencyChanged cid c.amount (max 0 amt) (max 0 amt - c.amount)] } : Engine).currencies = true := by
      intro x hx
      simpa [mhas_mupdate] using h x (List.mem_cons_of_mem _ hx)
    obtain ⟨s', hrun, hhas, hu, hp, hcp, ha, htc⟩ := ih _ htl
    refine ⟨s', ?_, ?_, by simpa using hu, by simpa using hp, by simpa using hcp,
      by simpa using ha, by simpa using htc⟩
    · simp only [applyCurrencies, hstep]
      exact hrun
    · intro k
      rw [hhas k]
      simp [mhas_mupdate]

theorem applyUpgrades_ok (l : List (String × ℕ)) (s : Engine)
    (h : ∀ x ∈ l, mhas x.1 s.upgrades = true) :
    ∃ s', applyUpgrades l s = (s', true) ∧
      s'.currencies = s.currencies ∧
      (∀ k, mhas k s'.upgrades = mhas k s.upgrades) ∧
      s'.paradigms = s.paradigms ∧ s'.currentParadigm = s.currentParadigm ∧
      s'.achievements = s.achievements ∧ s'.totalClicks = s.totalClicks ∧
      s'.log = s.log := by
  induction l generalizing s with
  | nil => exact ⟨s, by simp [applyUpgrades], rfl, fun _ => rfl, rfl, rfl, rfl, rfl, rfl⟩
  | cons hd tl ih =>
    obtain ⟨uid, lvl⟩ := hd
    have hm : mhas uid s.upgrades = true := h (uid, lvl) (List.mem_cons_self _ _)
    obtain ⟨u, hu⟩ : ∃ u, mfind uid s.upgrades = some u := by
      cases hmm : mfind uid s.upgrades with
      | none => simp [mhas, hmm] at hm
      | some u => exact ⟨u, rfl⟩
    have hstep : setLevel uid (lvl : ℤ) s = .ok
        { s with upgrades := mupdate uid (fun x => { x with level := (max 0 (lvl : ℤ)).toNat }) s.upgrades } := by
      simp [setLevel, hu]
    have htl : ∀ x ∈ tl, mhas x.1
        ({ s with upgrades := mupdate uid (fun x => { x with level := (max 0 (lvl : ℤ)).toNat }) s.upgrades } : Engine).upgrades = true := by
      intro x hx
      simpa [mhas_mupdate] using h x (List.mem_cons_of_mem _ hx)
    obtain ⟨s', hrun, hcc, hhas, hp, hcp, ha, htc, hlog⟩ := ih _ htl
    refine ⟨s', ?_, by simpa using hcc, ?_, by simpa using hp, by simpa using hcp,
      by simpa using ha, by simpa using htc, by simpa using hlog⟩
    · simp only [applyUpgrades, hstep]
      exact hrun
    · intro k
      rw [hhas k]
      simp [mhas_mupdate]

theorem achievementsDeserialize_fields (snap : List (String × (Bool × ℚ))) (s : Engine) :
    (achievementsDeserialize snap s).currencies = s.currencies ∧
    (achievementsDeserialize snap s).upgrades = s.upgrades ∧
    (achievementsDeserialize snap s).paradigms = s.paradigms ∧
    (achievementsDeserialize snap s).currentParadigm = s.currentParadigm ∧
    (achievementsDeserialize snap s).totalClicks = s.totalClicks ∧
    (achievementsDeserialize snap s).log = s.log := by
  induction snap generalizing s with
  | nil => simp [achievementsDeserialize]
  | cons hd tl ih =>
    have hstep : achievementsDeserialize (hd :: tl) s =
        achievementsDeserialize tl
          { s with achievements :=
              mupdate hd.1 (fun a => { a with unlocked := hd.2.1, progress := hd.2.2 }) s.achievements } := by
      simp [achievementsDeserialize]
    rw [hstep]
    simpa using ih _

theorem switchTo_ok (paradigmId : String) (s : Engine)
    (h : mhas paradigmId s.paradigms = true) :
    ∃ s', switchTo paradigmId s = .ok s' ∧
      s'.currencies = s.currencies ∧ s'.upgrades = s.upgrades ∧
      s'.achievements = s.achievements ∧ s'.totalClicks = s.totalClicks ∧
      s'.currentParadigm = some paradigmId := by
  cases htr : optTruthy s.currentParadigm with
  | false =>
    obtain ⟨q, hq⟩ : ∃ q, mfind paradigmId s.paradigms = some q := by
      cases hmm : mfind paradigmId s.paradigms with
      | none => simp [mhas, hmm] at h
      | some q => exact ⟨q, rfl⟩
    refine ⟨{ s with
        paradigms := mupdate paradigmId (fun p => { p with active := true }) s.paradigms
        currentParadigm := some paradigmId
        log := s.log ++ [Ev.paradigmChanged paradigmId q.name q.productionMultiplier] },
      ?_, rfl, rfl, rfl, rfl, rfl⟩
    simp [switchTo, h, htr, hq, emit]
  | true =>
    obtain ⟨cur, hcur⟩ : ∃ cur, s.currentParadigm = some cur := by
      cases hc : s.currentParadigm with
      | none => rw [hc] at htr; simp [optTruthy] at htr
      | some cur => exact ⟨cur, rfl⟩
    obtain ⟨q, hq⟩ : ∃ q, mfind paradigmId
        (mupdate cur (fun p => { p with active := false }) s.paradigms) = some q := by
      have : mhas paradigmId (mupdate cur (fun p => { p with active := false }) s.paradigms) = true := by
        rwa [mhas_mupdate]
      cases hmm : mfind paradigmId (mupdate cur (fun p => { p with active := false }) s.paradigms) with
      | none => simp [mhas, hmm] at this
      | some q => exact ⟨q, rfl⟩
    refine ⟨{ s with
        paradigms := mupdate paradigmId (fun p => { p with active := true })
          (mupdate cur (fun p => { p with active := false }) s.paradigms)
        currentParadigm := some paradigmId
        log := s.log ++ [Ev.paradigmChanged paradigmId q.name q.productionMultiplier] },
      ?_, rfl, rfl, rfl, rfl, rfl⟩
    have htr' : optTruthy (some cur) = true := hcur ▸ htr
    simp [switchTo, h, hcur, htr', hq, emit]

/-- C8 (amended): `snapshot` stores the literal 0 in the GameState's
`totalClicks` field; the engine's click count travels in the snapshot's
`custom` bag instead (`saveGame` writes it, `loadGame` reads it back), and a
save/load round trip through the engine restores the engine's counter
whenever the saved count is non-zero (a zero count is falsy and is skipped). -/
theorem saveGame_totalClicks (key : String) (now : ℤ) (s : Engine) (st : Store)
    (h : s.totalClicks ≠ 0) :
    (snapshot now (some s.totalClicks) s).totalClicks = 0 ∧
    (loadGame key (saveGame key now s st).1 (saveGame key now s st).2).1 = true ∧
    (loadGame key (saveGame key now s st).1 (saveGame key now s st).2).2.totalClicks
      = s.totalClicks := by
  have hsg : saveGame key now s st =
      (emit (.stateSaved key) s, ⟨mset key (snapshot now (some s.totalClicks) s) st.entries⟩) := rfl
  set snap := snapshot now (some s.totalClicks) s with hsnap
  have hkey : mfind key (mset key snap st.entries) = some snap := mfind_mset_self _ _ _
  set s₁ := emit (.stateSaved key) s with hs₁
  have hs₁c : s₁.currencies = s.currencies := rfl
  have hs₁u : s₁.upgrades = s.upgrades := rfl
  have hs₁p : s₁.paradigms = s.paradigms := rfl
  have hs₁t : s₁.totalClicks = s.totalClicks := rfl
  have hac : ∀ x ∈ snap.currencies, mhas x.1 s₁.currencies = true := by
    intro x hx
    rw [hs₁c]
    have : x.1 ∈ s.currencies.map Prod.fst := by
      rw [hsnap] at hx
      simp only [snapshot, currenciesAsRecord, List.mem_map] at hx
      obtain ⟨y, hy, hyx⟩ := hx
      rw [← hyx]
      exact List.mem_map_of_mem _ hy
    simpa [mhas] using mfind_isSome_of_mem_keys x.1 s.currencies this
  obtain ⟨s₂, hrun₂, hhas₂, hu₂, hp₂, hcp₂, ha₂, htc₂⟩ := applyCurrencies_ok snap.currencies s₁ hac
  have hau : ∀ x ∈ snap.upgrades, mhas x.1 s₂.upgrades = true := by
    intro x hx
    rw [hu₂, hs₁u]
    have : x.1 ∈ s.upgrades.map Prod.fst := by
      rw [hsnap] at hx
      simp only [snapshot, upgradesAsRecord, List.mem_map] at hx
      obtain ⟨y, hy, hyx⟩ := hx
      rw [← hyx]
      exact List.mem_map_of_mem _ hy
    simpa [mhas] using mfind_isSome_of_mem_keys x.1 s.upgrades this
  obtain ⟨s₃, hrun₃, hc₃, hhas₃, hp₃, hcp₃, ha₃, htc₃, hlog₃⟩ := applyUpgrades_ok snap.upgrades s₂ hau
  have hload : ∃ s₄, stateLoad key s₁ ⟨mset key snap st.entries⟩ = (some snap, s₄) ∧
      s₄.totalClicks = s.totalClicks := by
    cases hcond : (strTruthy snap.currentParadigm && mhas snap.currentParadigm s₃.paradigms) with
    | false =>
      refine ⟨emit (.stateLoaded key) (achievementsDeserialize snap.achievements s₃), ?_, ?_⟩
      · simp only [stateLoad, hkey, hrun₂, hrun₃, hcond, Bool.false_eq_true, if_false]
      · have hdf := achievementsDeserialize_fields snap.achievements s₃
        simp only [emit]
        rw [hdf.2.2.2.2.1, htc₃, htc₂, hs₁t]
    | true =>
      have hmh : mhas snap.currentParadigm s₃.paradigms = true :=
        (Bool.and_eq_true .. ▸ hcond).2
      obtain ⟨s₄, hsw, _, _, _, htc₄, _⟩ := switchTo_ok snap.currentParadigm s₃ hmh
      refine ⟨emit (.stateLoaded key) (achievementsDeserialize snap.achievements s₄), ?_, ?_⟩
      · simp only [stateLoad, hkey, hrun₂, hrun₃, hcond, if_true, hsw]
      · have hdf := achievementsDeserialize_fields snap.achievements s₄
        simp only [emit]
        rw [hdf.2.2.2.2.1, htc₄, htc₃, htc₂, hs₁t]
  obtain ⟨s₄, hload, htc₄⟩ := hload
  have hcustom : snap.custom = some s.totalClicks := by rw [hsnap]; rfl
  refine ⟨rfl, ?_, ?_⟩
  · simp [loadGame, hsg, hload, hcustom, h]
  · simp [loadGame, hsg, hload, hcustom, h, htc₄]

/-- An engine that has accumulated five clicks. -/
def cexClicksEngine : Engine :=
  { demoShop 0 0 with totalClicks := 5 }

/-- Counterexample for C8 as stated: the snapshot of an engine with five
clicks records 0 in its `totalClicks` field. -/
theorem snapshot_totalClicks_cex :
    cexClicksEngine.totalClicks = 5 ∧
    (snapshot 0 (some cexClicksEngine.totalClicks) cexClicksEngine).totalClicks = 0 := by
  with_unfolding_all decide

/-- Witness for C8: save/load on the five-click engine restores the count. -/
theorem saveGame_totalClicks_witness :
    cexClicksEngine.totalClicks ≠ 0 ∧
    (loadGame "k" (saveGame "k" 0 cexClicksEngine ⟨[]⟩).1 (saveGame "k" 0 cexClicksEngine ⟨[]⟩).2).1 = true ∧
    (loadGame "k" (saveGame "k" 0 cexClicksEngine ⟨[]⟩).1 (saveGame "k" 0 cexClicksEngine ⟨[]⟩).2).2.totalClicks
      = cexClicksEngine.totalClicks :=
  ⟨by with_unfolding_all decide,
   (saveGame_totalClicks "k" 0 cexClicksEngine ⟨[]⟩ (by with_unfolding_all decide)).2.1,
   (saveGame_totalClicks "k" 0 cexClicksEngine ⟨[]⟩ (by with_unfolding_all decide)).2.2⟩

/-! ## C4: save/load round trip -/

theorem applyCurrencies_id (l : List (String × ℚ)) (s : Engine)
    (h : ∀ x ∈ l, ∃ c, mfind x.1 s.currencies = some c ∧ c.amount = x.2 ∧ 0 ≤ x.2) :
    ∃ s', applyCurrencies l s = (s', true) ∧ s'.currencies = s.currencies ∧
      s'.upgrades = s.upgrades ∧ s'.paradigms = s.paradigms ∧
      s'.currentParadigm = s.currentParadigm ∧ s'.achievements = s.achievements := by
  induction l generalizing s with
  | nil => exact ⟨s, by simp [applyCurrencies], rfl, rfl, rfl, rfl, rfl⟩
  | cons hd tl ih =>
    obtain ⟨cid, amt⟩ := hd
    obtain ⟨c, hcx, hcax, hnnx⟩ := h (cid, amt) (List.mem_cons_self _ _)
    have hc : mfind cid s.currencies = some c := hcx
    have hca : c.amount = amt := hcax
    have hnn : 0 ≤ amt := hnnx
    have hmax : max 0 amt = amt := max_eq_right hnn
    have hfix : ({ c with amount := max 0 amt } : Currency) = c := by
      rw [hmax, ← hca]
    have hcur : mupdate cid (fun x => { x with amount := max 0 amt }) s.currencies
        = s.currencies :=
      mupdate_eq_self cid _ s.currencies c hc hfix
    have hstep : currencySet cid amt s = .ok
        { s with log := s.log ++ [Ev.currencyChanged cid c.amount (max 0 amt) (max 0 amt - c.amount)] } := by
      simp [currencySet, hc, emit, hcur]
    have htl : ∀ x ∈ tl, ∃ c, mfind x.1
        ({ s with log := s.log ++ [Ev.currencyChanged cid c.amount (max 0 amt) (max 0 amt - c.amount)] } : Engine).currencies
        = some c ∧ c.amount = x.2 ∧ 0 ≤ x.2 :=
      fun x hx => h x (List.mem_cons_of_mem _ hx)
    obtain ⟨s', hrun, hcc, hu, hp, hcp, ha⟩ :=
      ih { s with log := s.log ++ [Ev.currencyChanged cid c.amount (max 0 amt) (max 0 amt - c.amount)] } htl
    refine ⟨s', ?_, by simpa using hcc, by simpa using hu, by simpa using hp,
      by simpa using hcp, by simpa using ha⟩
    simp only [applyCurrencies, hstep]
    exact hrun

theorem applyUpgrades_id (l : List (String × ℕ)) (s : Engine)
    (h : ∀ x ∈ l, ∃ u, mfind x.1 s.upgrades = some u ∧ u.level = x.2) :
    ∃ s', applyUpgrades l s = (s', true) ∧ s'.currencies = s.currencies ∧
      s'.upgrades = s.upgrades ∧ s'.paradigms = s.paradigms ∧
      s'.currentParadigm = s.currentParadigm ∧ s'.achievements = s.achievements ∧
      s'.log = s.log := by
  induction l generalizing s with
  | nil => exact ⟨s, by simp [applyUpgrades], rfl, rfl, rfl, rfl, rfl, rfl⟩
  | cons hd tl ih =>
    obtain ⟨uid, lvl⟩ := hd
    obtain ⟨u, hux, hulx⟩ := h (uid, lvl) (List.mem_cons_self _ _)
    have hu : mfind uid s.upgrades = some u := hux
    have hul : u.level = lvl := hulx
    have htn : (max 0 (lvl : ℤ)).toNat = lvl := by
      rw [max_eq_right (Int.natCast_nonneg lvl)]
      exact Int.toNat_natCast lvl
    have hfix : ({ u with level := (max 0 (lvl : ℤ)).toNat } : Upgrade) = u := by
      rw [htn, ← hul]
    have hupg : mupdate uid (fun x => { x with level := (max 0 (lvl : ℤ)).toNat }) s.upgrades
        = s.upgrades :=
      mupdate_eq_self uid _ s.upgrades u hu hfix
    have hstep : setLevel uid (lvl : ℤ) s = .ok s := by
      simp only [setLevel, hu, hupg]
    obtain ⟨s', hrun, hcc, hup, hp, hcp, ha, hlog⟩ :=
      ih s (fun x hx => h x (List.mem_cons_of_mem _ hx))
    exact ⟨s', by simp only [applyUpgrades, hstep]; exact hrun, hcc, hup, hp, hcp, ha, hlog⟩

theorem achievementsDeserialize_id (l : List (String × (Bool × ℚ))) (s : Engine)
    (h : ∀ x ∈ l, ∃ a, mfind x.1 s.achievements = some a ∧ a.unlocked = x.2.1 ∧ a.progress = x.2.2) :
    achievementsDeserialize l s = s := by
  induction l generalizing s with
  | nil => simp [achievementsDeserialize]
  | cons hd tl ih =>
    obtain ⟨a, ha, hau, hap⟩ := h hd (List.mem_cons_self _ _)
    have hfix : ({ a with unlocked := hd.2.1, progress := hd.2.2 } : Achievement) = a := by
      rw [← hau, ← hap]
    have hach : mupdate hd.1 (fun x => { x with unlocked := hd.2.1, progress := hd.2.2 }) s.achievements
        = s.achievements :=
      mupdate_eq_self hd.1 _ s.achievements a ha hfix
    have hstep : achievementsDeserialize (hd :: tl) s = achievementsDeserialize tl s := by
      simp [achievementsDeserialize, hach]
    rw [hstep]
    exact ih s (fun x hx => h x (List.mem_cons_of_mem _ hx))

/-- C4 (amended): for every engine state with non-negative amounts and
distinct map keys, saving and immediately loading (through the in-memory
adapter) restores every currency amount, every upgrade level and every
achievement's unlocked flag and progress — the state lists come back
literally equal, with no side condition. The active paradigm id is also
restored provided the snapshot-time state either has a genuinely active
paradigm (a non-empty current id whose paradigm is registered under that
id) or has none and no paradigm is registered under the id `default`.
(When no paradigm is active but one is registered as `default`, loading
activates it, because `snapshot` stores `getCurrent()?.id ?? 'default'` —
see the counterexample.) -/
theorem saveLoad_roundtrip (key : String) (now : ℤ) (cst : Option ℕ) (s : Engine) (st : Store)
    (hnn : nonnegAmounts s)
    (hcn : (s.currencies.map Prod.fst).Nodup)
    (hun : (s.upgrades.map Prod.fst).Nodup)
    (han : (s.achievements.map Prod.fst).Nodup) :
    ∃ s', stateLoad key (stateSave key now cst s st).1 (stateSave key now cst s st).2 =
        (some (snapshot now cst s), s') ∧
      s'.currencies = s.currencies ∧
      s'.upgrades = s.upgrades ∧
      s'.achievements = s.achievements ∧
      ((∃ id p, s.currentParadigm = some id ∧ id ≠ "" ∧
          mfind id s.paradigms = some p ∧ p.id = id) →
        s'.currentParadigm = s.currentParadigm) ∧
      ((getCurrent s = none ∧ mfind "default" s.paradigms = none) →
        s'.currentParadigm = s.currentParadigm) := by
  have hsg : stateSave key now cst s st =
      (emit (.stateSaved key) s, ⟨mset key (snapshot now cst s) st.entries⟩) := rfl
  set snap := snapshot now cst s with hsnap
  have hkey : mfind key (mset key snap st.entries) = some snap := mfind_mset_self _ _ _
  set s₁ := emit (.stateSaved key) s with hs₁
  have hac : ∀ x ∈ snap.currencies, ∃ c, mfind x.1 s₁.currencies = some c ∧
      c.amount = x.2 ∧ 0 ≤ x.2 := by
    intro x hx
    rw [hsnap] at hx
    simp only [snapshot, currenciesAsRecord, List.mem_map] at hx
    obtain ⟨y, hy, hyx⟩ := hx
    have hym : (y.1, y.2) ∈ s.currencies := by rwa [Prod.mk.eta]
    refine ⟨y.2, ?_, ?_, ?_⟩
    · rw [← hyx]
      exact mfind_eq_of_mem_nodup y.1 s.currencies y.2 hcn hym
    · rw [← hyx]
    · rw [← hyx]
      exact hnn y hy
  obtain ⟨s₂, hrun₂, hcc₂, hu₂, hp₂, hcp₂, ha₂⟩ := applyCurrencies_id snap.currencies s₁ hac
  have hau : ∀ x ∈ snap.upgrades, ∃ u, mfind x.1 s₂.upgrades = some u ∧ u.level = x.2 := by
    intro x hx
    rw [hsnap] at hx
    simp only [snapshot, upgradesAsRecord, List.mem_map] at hx
    obtain ⟨y, hy, hyx⟩ := hx
    have hym : (y.1, y.2) ∈ s.upgrades := by rwa [Prod.mk.eta]
    refine ⟨y.2, ?_, ?_⟩
    · rw [← hyx, hu₂]
      exact mfind_eq_of_mem_nodup y.1 s.upgrades y.2 hun hym
    · rw [← hyx]
  obtain ⟨s₃, hrun₃, hcc₃, hu₃, hpp₃, hcp₃, ha₃, hlog₃⟩ := applyUpgrades_id snap.upgrades s₂ hau
  have hs₃c : s₃.currencies = s.currencies := by rw [hcc₃, hcc₂]; rfl
  have hs₃u : s₃.upgrades = s.upgrades := by rw [hu₃, hu₂]; rfl
  have hs₃p : s₃.paradigms = s.paradigms := by rw [hpp₃, hp₂]; rfl
  have hs₃cp : s₃.currentParadigm = s.currentParadigm := by rw [hcp₃, hcp₂]; rfl
  have hs₃a : s₃.achievements = s.achievements := by rw [ha₃, ha₂]; rfl
  have hdes : ∀ t : Engine, t.achievements = s.achievements →
      achievementsDeserialize snap.achievements t = t := by
    intro t ht
    apply achievementsDeserialize_id
    intro x hx
    rw [hsnap] at hx
    simp only [snapshot, achievementsSerialize, List.mem_map] at hx
    obtain ⟨y, hy, hyx⟩ := hx
    have hym : (y.1, y.2) ∈ s.achievements := by rwa [Prod.mk.eta]
    refine ⟨y.2, ?_, ?_, ?_⟩
    · rw [← hyx, ht]
      exact mfind_eq_of_mem_nodup y.1 s.achievements y.2 han hym
    · rw [← hyx]
    · rw [← hyx]
  cases hcond : (strTruthy snap.currentParadigm && mhas snap.currentParadigm s₃.paradigms) with
  | false =>
    have hdes₃ : achievementsDeserialize snap.achievements s₃ = s₃ := hdes s₃ hs₃a
    refine ⟨emit (.stateLoaded key) s₃, ?_, ?_, ?_, ?_, ?_, ?_⟩
    · rw [hsg]
      simp only [stateLoad, hkey, hrun₂, hrun₃, hcond, Bool.false_eq_true, if_false, hdes₃]
    · simp only [emit]
      rw [hs₃c]
    · simp only [emit]
      rw [hs₃u]
    · simp only [emit]
      rw [hs₃a]
    · intro _
      simp only [emit]
      rw [hs₃cp]
    · intro _
      simp only [emit]
      rw [hs₃cp]
  | true =>
    have hmh : mhas snap.currentParadigm s₃.paradigms = true :=
      (Bool.and_eq_true .. ▸ hcond).2
    obtain ⟨s₄, hsw, hc₄, hu₄, ha₄, _, hcp₄⟩ := switchTo_ok snap.currentParadigm s₃ hmh
    have hdes₄ : achievementsDeserialize snap.achievements s₄ = s₄ :=
      hdes s₄ (by rw [ha₄, hs₃a])
    refine ⟨emit (.stateLoaded key) s₄, ?_, ?_, ?_, ?_, ?_, ?_⟩
    · rw [hsg]
      simp only [stateLoad, hkey, hrun₂, hrun₃, hcond, if_true, hsw, hdes₄]
    · simp only [emit]
      rw [hc₄, hs₃c]
    · simp only [emit]
      rw [hu₄, hs₃u]
    · simp only [emit]
      rw [ha₄, hs₃a]
    · rintro ⟨id, p, hcv, hid, hfp, hpid⟩
      have hgc : getCurrent s = some p := by
        have hidb : (id == "") = false := by simpa using hid
        simp [getCurrent, hcv, optTruthy, hidb, hfp]
      have hsnapcp : snap.currentParadigm = id := by
        rw [hsnap]
        simp only [snapshot, hgc, Option.elim]
        exact hpid
      simp only [emit]
      rw [hcp₄, hsnapcp, hcv]
    · rintro ⟨hgc, hdf⟩
      have hsnapcp : snap.currentParadigm = "default" := by
        rw [hsnap]
        simp only [snapshot, hgc, Option.elim]
      rw [hsnapcp, hs₃p, mhas, hdf] at hmh
      simp at hmh

/-- The engine in the C4 witness: a currency, a levelled upgrade, an active
paradigm and an achievement. -/
def demoFullEngine : Engine :=
  { initEngine with
    currencies := [("gold", demoGold 30)]
    upgrades := [("worker", demoUpgrade 2)]
    paradigms := [("p1", demoParadigm "p1" true 2)]
    currentParadigm := some "p1"
    achievements := [("a1", demoAchievement)] }

/-- Witness for C4: the round trip through the in-memory adapter restores
the demo engine's currencies, upgrade levels, paradigm id and achievements. -/
theorem saveLoad_roundtrip_witness :
    nonnegAmounts demoFullEngine ∧
    (demoFullEngine.currencies.map Prod.fst).Nodup ∧
    (demoFullEngine.upgrades.map Prod.fst).Nodup ∧
    (demoFullEngine.achievements.map Prod.fst).Nodup ∧
    (∃ s', stateLoad "k" (stateSave "k" 7 none demoFullEngine ⟨[]⟩).1
        (stateSave "k" 7 none demoFullEngine ⟨[]⟩).2 =
        (some (snapshot 7 none demoFullEngine), s') ∧
      s'.currencies = demoFullEngine.currencies ∧
      s'.upgrades = demoFullEngine.upgrades ∧
      s'.achievements = demoFullEngine.achievements ∧
      ((∃ id p, demoFullEngine.currentParadigm = some id ∧ id ≠ "" ∧
          mfind id demoFullEngine.paradigms = some p ∧ p.id = id) →
        s'.currentParadigm = demoFullEngine.currentParadigm) ∧
      ((getCurrent demoFullEngine = none ∧ mfind "default" demoFullEngine.paradigms = none) →
        s'.currentParadigm = demoFullEngine.currentParadigm)) :=
  ⟨by with_unfolding_all decide, by with_unfolding_all decide, by with_unfolding_all decide,
   by with_unfolding_all decide,
   saveLoad_roundtrip "k" 7 none demoFullEngine ⟨[]⟩
     (by with_unfolding_all decide) (by with_unfolding_all decide)
     (by with_unfolding_all decide) (by with_unfolding_all decide)⟩

/-- An engine with no active paradigm but an (inactive) paradigm registered
under the id `default`. -/
def cexDefaultEngine : Engine :=
  { initEngine with
    currencies := [("g", demoGold 0)]
    paradigms := [("default", demoParadigm "default" false 3)]
    currentParadigm := none }

/-- Counterexample for C4 as stated: with no paradigm active at snapshot
time, `snapshot` records the placeholder id `default`, and loading the
snapshot back activates the registered `default` paradigm — the active
paradigm id is NOT restored to its snapshot-time value (none). -/
theorem roundtrip_default_cex :
    cexDefaultEngine.currentParadigm = none ∧
    nonnegAmounts cexDefaultEngine ∧
    ((stateLoad "k" (stateSave "k" 0 none cexDefaultEngine ⟨[]⟩).1
        (stateSave "k" 0 none cexDefaultEngine ⟨[]⟩).2).2).currentParadigm = some "default" := by
  with_unfolding_all decide

end ClickerEngine
